import Mathlib

/-!
# Verification of the vault encryption core of `planificador-finanzas`

Shallow embedding of `src/vault/` (crypto.py, crypto_hybrid.py, main.py,
migrate.py) and proofs about the claims of the specification.

Python strings are modelled as `List Char`, Python `bytes` as `List Nat`
(each element `< 256` where the code guarantees it).  Randomness
(`os.urandom`) is passed explicitly as oracle arguments.  External
library primitives (AES-GCM, Fernet, PBKDF2, Argon2id, RSA-OAEP, base64,
UTF-8) are not code of this repository; they are modelled executably,
faithful to the behaviour the code relies on, as stated in their doc
comments.
-/

namespace Vault

/-- Python `str` model: a list of Unicode scalar values. -/
abbrev Str := List Char

/-- Python `bytes` model: a list of byte values. -/
abbrev Bytes := List Nat

/-- All elements of a byte string are in range. -/
def ByteOk (bs : Bytes) : Prop := ∀ b ∈ bs, b < 256

instance (bs : Bytes) : Decidable (ByteOk bs) := by
  unfold ByteOk; infer_instance

instance exceptDecEq {ε α : Type} [DecidableEq ε] [DecidableEq α] :
    DecidableEq (Except ε α)
  | .error e, .error e' =>
      if h : e = e' then isTrue (by rw [h])
      else isFalse (by intro hh; cases hh; exact h rfl)
  | .error _, .ok _ => isFalse (by intro hh; cases hh)
  | .ok _, .error _ => isFalse (by intro hh; cases hh)
  | .ok a, .ok b =>
      if h : a = b then isTrue (by rw [h])
      else isFalse (by intro hh; cases hh; exact h rfl)

/-! ## base64 (urlsafe alphabet), model of Python's `base64.urlsafe_b64encode`
and `base64.urlsafe_b64decode`. -/

/-- The urlsafe base64 digit for a 6-bit value (`A-Z a-z 0-9 - _`). -/
def b64Digit (n : Nat) : Char :=
  if n < 26 then Char.ofNat (65 + n)
  else if n < 52 then Char.ofNat (97 + (n - 26))
  else if n < 62 then Char.ofNat (48 + (n - 52))
  else if n = 62 then '-'
  else '_'

/-- The 6-bit value of a urlsafe base64 digit, `none` for characters
outside the alphabet. -/
def b64Val (c : Char) : Option Nat :=
  if 'A' ≤ c ∧ c ≤ 'Z' then some (c.toNat - 65)
  else if 'a' ≤ c ∧ c ≤ 'z' then some (26 + (c.toNat - 97))
  else if '0' ≤ c ∧ c ≤ '9' then some (52 + (c.toNat - 48))
  else if c = '-' then some 62
  else if c = '_' then some 63
  else none

/-- Model of `base64.urlsafe_b64encode` on a byte string (as characters,
including `=` padding). -/
def b64Encode : Bytes → List Char
  | [] => []
  | [a] => [b64Digit (a / 4), b64Digit (a % 4 * 16), '=', '=']
  | [a, b] => [b64Digit (a / 4), b64Digit (a % 4 * 16 + b / 16), b64Digit (b % 16 * 4), '=']
  | a :: b :: c :: rest =>
      b64Digit (a / 4) :: b64Digit (a % 4 * 16 + b / 16) ::
      b64Digit (b % 16 * 4 + c / 64) :: b64Digit (c % 64) :: b64Encode rest

/-- Model of `base64.urlsafe_b64decode` on well-formed groups of four
characters.  Like Python's decoder it discards the unused low bits of the
final digit of a padded group (`QQ==` and `QS==` decode to the same byte);
inputs that are not a sequence of four-character groups over the alphabet
are rejected with `none` (Python raises `binascii.Error` on such inputs or
silently drops foreign characters; no theorem below depends on an input of
that shape). -/
def b64Decode : List Char → Option Bytes
  | [] => some []
  | c1 :: c2 :: c3 :: c4 :: rest =>
      if c3 = '=' then
        if c4 = '=' then
          if rest = [] then do
            let d1 ← b64Val c1
            let d2 ← b64Val c2
            pure [d1 * 4 + d2 / 16]
          else none
        else none
      else if c4 = '=' then
        if rest = [] then do
          let d1 ← b64Val c1
          let d2 ← b64Val c2
          let d3 ← b64Val c3
          pure [d1 * 4 + d2 / 16, d2 % 16 * 16 + d3 / 4]
        else none
      else do
        let d1 ← b64Val c1
        let d2 ← b64Val c2
        let d3 ← b64Val c3
        let d4 ← b64Val c4
        let tail ← b64Decode rest
        pure ([d1 * 4 + d2 / 16, d2 % 16 * 16 + d3 / 4, d3 % 4 * 64 + d4] ++ tail)
  | _ => none

theorem b64Val_b64Digit {n : Nat} (h : n < 64) : b64Val (b64Digit n) = some n := by
  revert h
  revert n
  decide

theorem b64Digit_ne_dot {n : Nat} (h : n < 64) : b64Digit n ≠ '.' := by
  revert h
  revert n
  decide

theorem b64Digit_ne_pad {n : Nat} (h : n < 64) : b64Digit n ≠ '=' := by
  revert h
  revert n
  decide

theorem b64Encode_decode (bs : Bytes) (h : ByteOk bs) :
    b64Decode (b64Encode bs) = some bs := by
  induction bs using b64Encode.induct with
  | case1 => rfl
  | case2 a =>
      have ha : a < 256 := h a (by simp)
      simp only [b64Encode, b64Decode,
        b64Val_b64Digit (show a / 4 < 64 by omega),
        b64Val_b64Digit (show a % 4 * 16 < 64 by omega),
        Option.pure_def, Option.bind_eq_bind, Option.some_bind,
        Option.some.injEq, List.cons.injEq, and_true, ite_true, ite_false,
        reduceIte]
      omega
  | case3 a b =>
      have ha : a < 256 := h a (by simp)
      have hb : b < 256 := h b (by simp)
      simp only [b64Encode, b64Decode,
        b64Val_b64Digit (show a / 4 < 64 by omega),
        b64Val_b64Digit (show a % 4 * 16 + b / 16 < 64 by omega),
        b64Val_b64Digit (show b % 16 * 4 < 64 by omega),
        b64Digit_ne_pad (show b % 16 * 4 < 64 by omega),
        Option.pure_def, Option.bind_eq_bind, Option.some_bind,
        Option.some.injEq, List.cons.injEq, and_true, if_true, if_false,
        ite_true, ite_false, reduceIte]
      constructor <;> omega
  | case4 a b c rest ih =>
      have ha : a < 256 := h a (by simp)
      have hb : b < 256 := h b (by simp)
      have hc : c < 256 := h c (by simp)
      have hrest : ByteOk rest := fun x hx => h x (by simp [hx])
      simp only [b64Encode, b64Decode,
        b64Val_b64Digit (show a / 4 < 64 by omega),
        b64Val_b64Digit (show a % 4 * 16 + b / 16 < 64 by omega),
        b64Val_b64Digit (show b % 16 * 4 + c / 64 < 64 by omega),
        b64Val_b64Digit (show c % 64 < 64 by omega),
        b64Digit_ne_pad (show b % 16 * 4 + c / 64 < 64 by omega),
        b64Digit_ne_pad (show c % 64 < 64 by omega),
        ih hrest, Option.pure_def, Option.bind_eq_bind, Option.some_bind,
        Option.some.injEq, ite_true, ite_false, reduceIte]
      have h1 : a / 4 * 4 + (a % 4 * 16 + b / 16) / 16 = a := by omega
      have h2 : (a % 4 * 16 + b / 16) % 16 * 16 + (b % 16 * 4 + c / 64) / 4 = b := by omega
      have h3 : (b % 16 * 4 + c / 64) % 4 * 64 + c % 64 = c := by omega
      rw [h1, h2, h3]
      rfl

theorem b64Encode_injOn {xs ys : Bytes} (hx : ByteOk xs) (hy : ByteOk ys)
    (h : b64Encode xs = b64Encode ys) : xs = ys := by
  have := b64Encode_decode xs hx
  rw [h, b64Encode_decode ys hy] at this
  exact (Option.some.injEq _ _ ▸ this).symm

theorem b64Encode_no_dot (bs : Bytes) (h : ByteOk bs) :
    ∀ c ∈ b64Encode bs, c ≠ '.' := by
  induction bs using b64Encode.induct with
  | case1 => simp [b64Encode]
  | case2 a =>
      have ha : a < 256 := h a (by simp)
      simp only [b64Encode, List.mem_cons, List.not_mem_nil, or_false]
      rintro c (rfl | rfl | rfl | rfl)
      · exact b64Digit_ne_dot (by omega)
      · exact b64Digit_ne_dot (by omega)
      · decide
      · decide
  | case3 a b =>
      have ha : a < 256 := h a (by simp)
      have hb : b < 256 := h b (by simp)
      simp only [b64Encode, List.mem_cons, List.not_mem_nil, or_false]
      rintro c (rfl | rfl | rfl | rfl)
      · exact b64Digit_ne_dot (by omega)
      · exact b64Digit_ne_dot (by omega)
      · exact b64Digit_ne_dot (by omega)
      · decide
  | case4 a b c rest ih =>
      have ha : a < 256 := h a (by simp)
      have hb : b < 256 := h b (by simp)
      have hc : c < 256 := h c (by simp)
      have hrest : ByteOk rest := fun x hx => h x (by simp [hx])
      simp only [b64Encode, List.mem_cons]
      rintro ch (rfl | rfl | rfl | rfl | hm)
      · exact b64Digit_ne_dot (by omega)
      · exact b64Digit_ne_dot (by omega)
      · exact b64Digit_ne_dot (by omega)
      · exact b64Digit_ne_dot (by omega)
      · exact ih hrest ch hm

/-! ## Splitting and joining on `"."`, model of Python's `str.split(".")`
and `".".join(...)`. -/

/-- Model of Python `s.split(".")` (note `"".split(".") == [""]`). -/
def splitOnDot : List Char → List (List Char)
  | [] => [[]]
  | c :: rest =>
      if c = '.' then [] :: splitOnDot rest
      else
        match splitOnDot rest with
        | [] => [[c]]
        | p :: ps => (c :: p) :: ps

/-- Model of Python `".".join(parts)`. -/
def joinDot : List (List Char) → List Char
  | [] => []
  | [p] => p
  | p :: q :: ps => p ++ '.' :: joinDot (q :: ps)

theorem splitOnDot_no_dot (x : List Char) (hx : ∀ c ∈ x, c ≠ '.') :
    splitOnDot x = [x] := by
  induction x with
  | nil => rfl
  | cons c rest ih =>
      have hc : c ≠ '.' := hx c (by simp)
      have hrest : ∀ ch ∈ rest, ch ≠ '.' := fun ch h => hx ch (by simp [h])
      simp only [splitOnDot, if_neg hc, ih hrest]

theorem splitOnDot_append_dot (x rest : List Char) (hx : ∀ c ∈ x, c ≠ '.') :
    splitOnDot (x ++ '.' :: rest) = x :: splitOnDot rest := by
  induction x with
  | nil => simp [splitOnDot]
  | cons c x' ih =>
      have hc : c ≠ '.' := hx c (by simp)
      have hx' : ∀ ch ∈ x', ch ≠ '.' := fun ch h => hx ch (by simp [h])
      simp only [List.cons_append, splitOnDot, if_neg hc]
      have hsame : x'.append ('.' :: rest) = x' ++ '.' :: rest := rfl
      rw [hsame, ih hx']

theorem splitOnDot_joinDot3 (x y z : List Char)
    (hx : ∀ c ∈ x, c ≠ '.') (hy : ∀ c ∈ y, c ≠ '.') (hz : ∀ c ∈ z, c ≠ '.') :
    splitOnDot (joinDot [x, y, z]) = [x, y, z] := by
  show splitOnDot (x ++ '.' :: (y ++ '.' :: z)) = [x, y, z]
  rw [splitOnDot_append_dot x _ hx, splitOnDot_append_dot y _ hy,
    splitOnDot_no_dot z hz]

theorem splitOnDot_joinDot4 (w x y z : List Char)
    (hw : ∀ c ∈ w, c ≠ '.') (hx : ∀ c ∈ x, c ≠ '.')
    (hy : ∀ c ∈ y, c ≠ '.') (hz : ∀ c ∈ z, c ≠ '.') :
    splitOnDot (joinDot [w, x, y, z]) = [w, x, y, z] := by
  show splitOnDot (w ++ '.' :: (x ++ '.' :: (y ++ '.' :: z))) = [w, x, y, z]
  rw [splitOnDot_append_dot w _ hw, splitOnDot_append_dot x _ hx,
    splitOnDot_append_dot y _ hy, splitOnDot_no_dot z hz]

theorem joinDot3_ne_nil (x y z : List Char) : joinDot [x, y, z] ≠ [] := by
  show x ++ '.' :: (y ++ '.' :: z) ≠ []
  simp

/-! ## A self-delimiting length code, used by the ideal MAC below. -/

/-- A prefix-free byte encoding of a natural number: `n / 255` copies of
`255` followed by the final byte `n % 255 < 255`. -/
def lenCode (n : Nat) : Bytes :=
  List.replicate (n / 255) 255 ++ [n % 255]

theorem lenCode_lt {n : Nat} (h : n < 255) : lenCode n = [n] := by
  rw [lenCode, Nat.div_eq_of_lt h, Nat.mod_eq_of_lt h]
  rfl

theorem lenCode_ge {n : Nat} (h : ¬ n < 255) :
    lenCode n = 255 :: lenCode (n - 255) := by
  have hd : n / 255 = (n - 255) / 255 + 1 := by omega
  have hm : n % 255 = (n - 255) % 255 := by omega
  rw [lenCode, lenCode, hd, hm, List.replicate_succ, List.cons_append]

theorem lenCode_byteOk (n : Nat) : ByteOk (lenCode n) := by
  intro b hb
  rw [lenCode] at hb
  rcases List.mem_append.1 hb with h | h
  · rw [List.eq_of_mem_replicate h]; omega
  · simp at h; omega

theorem lenCode_append_inj : ∀ {a b : Nat} {x y : Bytes},
    lenCode a ++ x = lenCode b ++ y → a = b ∧ x = y := by
  intro a
  induction a using Nat.strong_induction_on with
  | _ a ih =>
      intro b x y h
      by_cases ha : a < 255
      · rw [lenCode_lt ha] at h
        by_cases hb : b < 255
        · rw [lenCode_lt hb] at h
          simp only [List.cons_append, List.nil_append, List.cons.injEq] at h
          exact ⟨h.1, h.2⟩
        · rw [lenCode_ge hb] at h
          simp only [List.cons_append, List.nil_append, List.cons.injEq] at h
          obtain ⟨h1, h2⟩ := h
          omega
      · rw [lenCode_ge ha] at h
        by_cases hb : b < 255
        · rw [lenCode_lt hb] at h
          simp only [List.cons_append, List.nil_append, List.cons.injEq] at h
          obtain ⟨h1, h2⟩ := h
          omega
        · rw [lenCode_ge hb] at h
          simp only [List.cons_append, List.cons.injEq] at h
          obtain ⟨h255, hrest⟩ := h
          obtain ⟨hab, hxy⟩ := ih (a - 255) (by omega) hrest
          exact ⟨by omega, hxy⟩

/-! ## UTF-8, model of Python's `str.encode()` / `bytes.decode()`. -/

theorem char_valid_nat (c : Char) :
    c.toNat < 55296 ∨ (57343 < c.toNat ∧ c.toNat < 1114112) := by
  rcases c.valid with h | ⟨h1, h2⟩
  · left; exact UInt32.toNat_lt_of_lt (by decide) h
  · right
    exact ⟨UInt32.lt_toNat_of_lt (by decide) h1, UInt32.toNat_lt_of_lt (by decide) h2⟩

def utf8EncodeChar (c : Char) : Bytes :=
  let n := c.toNat
  if n < 128 then [n]
  else if n < 2048 then [192 + n / 64, 128 + n % 64]
  else if n < 65536 then [224 + n / 4096, 128 + n / 64 % 64, 128 + n % 64]
  else [240 + n / 262144, 128 + n / 4096 % 64, 128 + n / 64 % 64, 128 + n % 64]

def utf8Encode : Str → Bytes
  | [] => []
  | c :: cs => utf8EncodeChar c ++ utf8Encode cs

def contOk (b : Nat) : Prop := 128 ≤ b ∧ b < 192

instance (b : Nat) : Decidable (contOk b) := by unfold contOk; infer_instance

def utf8DecodeStep : Bytes → Option (Char × Bytes)
  | [] => none
  | b :: rest =>
      if b < 128 then some (Char.ofNat b, rest)
      else if b < 192 then none
      else if b < 224 then
        match rest with
        | b2 :: rest2 =>
            if contOk b2 then
              let n := (b - 192) * 64 + (b2 - 128)
              if 128 ≤ n then some (Char.ofNat n, rest2) else none
            else none
        | [] => none
      else if b < 240 then
        match rest with
        | b2 :: b3 :: rest3 =>
            if contOk b2 ∧ contOk b3 then
              let n := (b - 224) * 4096 + (b2 - 128) * 64 + (b3 - 128)
              if 2048 ≤ n ∧ (n < 55296 ∨ 57343 < n) then some (Char.ofNat n, rest3)
              else none
            else none
        | _ => none
      else if b < 245 then
        match rest with
        | b2 :: b3 :: b4 :: rest4 =>
            if contOk b2 ∧ contOk b3 ∧ contOk b4 then
              let n := (b - 240) * 262144 + (b2 - 128) * 4096 + (b3 - 128) * 64 + (b4 - 128)
              if 65536 ≤ n ∧ n < 1114112 then some (Char.ofNat n, rest4) else none
            else none
        | _ => none
      else none

def utf8DecodeAux : Nat → Bytes → Option Str
  | _, [] => some []
  | 0, _ :: _ => none
  | fuel + 1, b :: rest =>
      match utf8DecodeStep (b :: rest) with
      | none => none
      | some (c, rest2) =>
          match utf8DecodeAux fuel rest2 with
          | none => none
          | some tail => some (c :: tail)

/-- Model of Python `bytes.decode()` (UTF-8, strict): rejects truncated
sequences, stray continuation bytes, overlong encodings, surrogate code
points and out-of-range leaders. -/
def utf8Decode (bs : Bytes) : Option Str := utf8DecodeAux bs.length bs

theorem utf8DecodeStep_encodeChar (c : Char) (bs : Bytes) :
    utf8DecodeStep (utf8EncodeChar c ++ bs) = some (c, bs) := by
  have hv := char_valid_nat c
  by_cases h1 : c.toNat < 128
  · simp only [utf8EncodeChar, if_pos h1, List.cons_append, List.nil_append,
      utf8DecodeStep, Char.ofNat_toNat]
  · by_cases h2 : c.toNat < 2048
    · simp only [utf8EncodeChar, if_neg h1, if_pos h2, List.cons_append,
        List.nil_append, utf8DecodeStep]
      rw [if_neg (show ¬ 192 + c.toNat / 64 < 128 by omega),
        if_neg (show ¬ 192 + c.toNat / 64 < 192 by omega),
        if_pos (show 192 + c.toNat / 64 < 224 by omega),
        if_pos (show contOk (128 + c.toNat % 64) by unfold contOk; omega)]
      rw [show (192 + c.toNat / 64 - 192) * 64 + (128 + c.toNat % 64 - 128) = c.toNat by
        omega]
      rw [if_pos (show 128 ≤ c.toNat by omega), Char.ofNat_toNat]
    · by_cases h3 : c.toNat < 65536
      · simp only [utf8EncodeChar, if_neg h1, if_neg h2, if_pos h3,
          List.cons_append, List.nil_append, utf8DecodeStep]
        rw [if_neg (show ¬ 224 + c.toNat / 4096 < 128 by omega),
          if_neg (show ¬ 224 + c.toNat / 4096 < 192 by omega),
          if_neg (show ¬ 224 + c.toNat / 4096 < 224 by omega),
          if_pos (show 224 + c.toNat / 4096 < 240 by omega),
          if_pos (show contOk (128 + c.toNat / 64 % 64) ∧ contOk (128 + c.toNat % 64) by
            unfold contOk; omega)]
        rw [show (224 + c.toNat / 4096 - 224) * 4096 + (128 + c.toNat / 64 % 64 - 128) * 64 +
            (128 + c.toNat % 64 - 128) = c.toNat by omega]
        rw [if_pos (show 2048 ≤ c.toNat ∧ (c.toNat < 55296 ∨ 57343 < c.toNat) by omega),
          Char.ofNat_toNat]
      · simp only [utf8EncodeChar, if_neg h1, if_neg h2, if_neg h3,
          List.cons_append, List.nil_append, utf8DecodeStep]
        rw [if_neg (show ¬ 240 + c.toNat / 262144 < 128 by omega),
          if_neg (show ¬ 240 + c.toNat / 262144 < 192 by omega),
          if_neg (show ¬ 240 + c.toNat / 262144 < 224 by omega),
          if_neg (show ¬ 240 + c.toNat / 262144 < 240 by omega),
          if_pos (show 240 + c.toNat / 262144 < 245 by omega),
          if_pos (show contOk (128 + c.toNat / 4096 % 64) ∧ contOk (128 + c.toNat / 64 % 64) ∧
              contOk (128 + c.toNat % 64) by unfold contOk; omega)]
        rw [show (240 + c.toNat / 262144 - 240) * 262144 + (128 + c.toNat / 4096 % 64 - 128) * 4096 +
            (128 + c.toNat / 64 % 64 - 128) * 64 + (128 + c.toNat % 64 - 128) = c.toNat by omega]
        rw [if_pos (show 65536 ≤ c.toNat ∧ c.toNat < 1114112 by omega), Char.ofNat_toNat]

theorem utf8EncodeChar_cons (c : Char) : ∃ b t, utf8EncodeChar c = b :: t := by
  by_cases h1 : c.toNat < 128
  · exact ⟨c.toNat, [], by simp only [utf8EncodeChar, if_pos h1]⟩
  · by_cases h2 : c.toNat < 2048
    · exact ⟨192 + c.toNat / 64, [128 + c.toNat % 64], by
        simp only [utf8EncodeChar, if_neg h1, if_pos h2]⟩
    · by_cases h3 : c.toNat < 65536
      · exact ⟨224 + c.toNat / 4096, [128 + c.toNat / 64 % 64, 128 + c.toNat % 64], by
          simp only [utf8EncodeChar, if_neg h1, if_neg h2, if_pos h3]⟩
      · exact ⟨240 + c.toNat / 262144,
          [128 + c.toNat / 4096 % 64, 128 + c.toNat / 64 % 64, 128 + c.toNat % 64], by
          simp only [utf8EncodeChar, if_neg h1, if_neg h2, if_neg h3]⟩

theorem utf8DecodeAux_encode (s : Str) :
    ∀ fuel : Nat, (utf8Encode s).length ≤ fuel →
      utf8DecodeAux fuel (utf8Encode s) = some s := by
  induction s with
  | nil => intro fuel _; cases fuel <;> rfl
  | cons c cs ih =>
      intro fuel hf
      obtain ⟨b, t, hbt⟩ := utf8EncodeChar_cons c
      have hlen : 1 ≤ (utf8EncodeChar c).length := by rw [hbt]; simp
      rw [utf8Encode] at hf ⊢
      cases fuel with
      | zero =>
          exfalso
          rw [List.length_append, hbt] at hf
          simp at hf
      | succ f =>
          rw [hbt, List.cons_append, utf8DecodeAux, ← List.cons_append, ← hbt,
            utf8DecodeStep_encodeChar]
          simp only [ih f (by rw [List.length_append] at hf; omega)]

theorem utf8Decode_encode (s : Str) : utf8Decode (utf8Encode s) = some s :=
  utf8DecodeAux_encode s (utf8Encode s).length (Nat.le_refl _)

theorem utf8EncodeChar_byteOk (c : Char) : ByteOk (utf8EncodeChar c) := by
  have hv := char_valid_nat c
  by_cases h1 : c.toNat < 128
  · simp only [utf8EncodeChar, if_pos h1]
    intro b hb; simp at hb; omega
  · by_cases h2 : c.toNat < 2048
    · simp only [utf8EncodeChar, if_neg h1, if_pos h2]
      intro b hb; simp at hb; omega
    · by_cases h3 : c.toNat < 65536
      · simp only [utf8EncodeChar, if_neg h1, if_neg h2, if_pos h3]
        intro b hb; simp at hb; omega
      · simp only [utf8EncodeChar, if_neg h1, if_neg h2, if_neg h3]
        intro b hb; simp at hb; omega

theorem utf8Encode_byteOk (s : Str) : ByteOk (utf8Encode s) := by
  induction s with
  | nil => intro b hb; simp [utf8Encode] at hb
  | cons c cs ih =>
      intro b hb
      rw [utf8Encode] at hb
      rcases List.mem_append.1 hb with h | h
      · exact utf8EncodeChar_byteOk c b h
      · exact ih b h

/-! ## Ideal AEAD model.

Modelled from the spec: AES-256-GCM (and the authenticated core of
Fernet) is provided by the external `cryptography` library, not by this
repository.  Following the contract of spec section 4.2 — ciphertext is the
keystream-masked plaintext, and decryption verifies the authentication
tag before releasing any plaintext, any modification of ciphertext or
tag being detected — the cipher is modelled as a keystream XOR and the
tag as a perfectly binding MAC (an injective encoding of key, nonce and
ciphertext). -/

/-- One keystream byte for position `i` under `key` and `nonce`
(abstract model of the AES-CTR keystream). -/
def ksByte (key nonce : Bytes) (i : Nat) : Nat :=
  (key.foldl (fun a b => a * 31 + b) 7 +
    nonce.foldl (fun a b => a * 31 + b) 13 + i * 97) % 256

/-- XOR a byte string against the keystream, starting at position `i`. -/
def xorKsFrom (key nonce : Bytes) : Nat → Bytes → Bytes
  | _, [] => []
  | i, b :: bs => (b ^^^ ksByte key nonce i) :: xorKsFrom key nonce (i + 1) bs

/-- Mask/unmask a plaintext with the keystream (its own inverse). -/
def xorKs (key nonce bs : Bytes) : Bytes := xorKsFrom key nonce 0 bs

theorem xorKsFrom_involutive (key nonce : Bytes) :
    ∀ (i : Nat) (bs : Bytes), xorKsFrom key nonce i (xorKsFrom key nonce i bs) = bs := by
  intro i bs
  induction bs generalizing i with
  | nil => rfl
  | cons b bs ih =>
      rw [xorKsFrom, xorKsFrom, Nat.xor_cancel_right, ih]

theorem xorKs_involutive (key nonce bs : Bytes) :
    xorKs key nonce (xorKs key nonce bs) = bs :=
  xorKsFrom_involutive key nonce 0 bs

theorem xorKsFrom_byteOk (key nonce : Bytes) :
    ∀ (i : Nat) (bs : Bytes), ByteOk bs → ByteOk (xorKsFrom key nonce i bs) := by
  intro i bs
  induction bs generalizing i with
  | nil => intro _ b hb; simp [xorKsFrom] at hb
  | cons b bs ih =>
      intro h x hx
      rw [xorKsFrom] at hx
      rcases List.mem_cons.1 hx with rfl | hx
      · have hb : b < 256 := h b (by simp)
        have hk : ksByte key nonce i < 256 := Nat.mod_lt _ (by omega)
        have : b ^^^ ksByte key nonce i < 2 ^ 8 :=
          Nat.xor_lt_two_pow (by omega) (by omega)
        omega
      · exact ih (i + 1) (fun y hy => h y (by simp [hy])) x hx

theorem xorKs_byteOk (key nonce bs : Bytes) (h : ByteOk bs) :
    ByteOk (xorKs key nonce bs) :=
  xorKsFrom_byteOk key nonce 0 bs h

/-- The ideal MAC: a perfectly binding tag over key, nonce and
ciphertext (length-prefixed so the encoding is injective). -/
def macBytes (key nonce ct : Bytes) : Bytes :=
  lenCode key.length ++ key ++ (lenCode nonce.length ++ (nonce ++ ct))

theorem macBytes_byteOk {key nonce ct : Bytes}
    (hk : ByteOk key) (hn : ByteOk nonce) (hc : ByteOk ct) :
    ByteOk (macBytes key nonce ct) := by
  intro b hb
  unfold macBytes at hb
  rcases List.mem_append.1 hb with h | h
  · rcases List.mem_append.1 h with h | h
    · exact lenCode_byteOk _ b h
    · exact hk b h
  · rcases List.mem_append.1 h with h | h
    · exact lenCode_byteOk _ b h
    · rcases List.mem_append.1 h with h | h
      · exact hn b h
      · exact hc b h

theorem macBytes_inj {key nonce ct key' nonce' ct' : Bytes}
    (h : macBytes key nonce ct = macBytes key' nonce' ct') :
    key = key' ∧ nonce = nonce' ∧ ct = ct' := by
  unfold macBytes at h
  rw [List.append_assoc, List.append_assoc] at h
  obtain ⟨hklen, h⟩ := lenCode_append_inj h
  obtain ⟨hk, h⟩ := List.append_inj h hklen
  obtain ⟨hnlen, h⟩ := lenCode_append_inj h
  obtain ⟨hn, hc⟩ := List.append_inj h hnlen
  exact ⟨hk, hn, hc⟩

/-- Ideal-model AEAD encryption: returns `(tag, ciphertext)`. -/
def aeadEncrypt (key nonce pt : Bytes) : Bytes × Bytes :=
  let ct := xorKs key nonce pt
  (macBytes key nonce ct, ct)

/-- Ideal-model AEAD decryption: verifies the tag before returning any
plaintext; fails (`none`) on any mismatch. -/
def aeadDecrypt (key nonce tag ct : Bytes) : Option Bytes :=
  if tag = macBytes key nonce ct then some (xorKs key nonce ct) else none

theorem aeadDecrypt_encrypt (key nonce pt : Bytes) :
    aeadDecrypt key nonce (aeadEncrypt key nonce pt).1 (aeadEncrypt key nonce pt).2 =
      some pt := by
  unfold aeadEncrypt aeadDecrypt
  rw [if_pos rfl, xorKs_involutive]

/-! ## RSA and OAEP (external library), modelled from the spec. -/

/-- Modelled from the spec (§4.3): an RSA private key, represented by its
serialized PKCS8 PEM bytes (`private_bytes` / `load_pem_private_key` are
the external library serialization round-trip). -/
structure RSAPrivateKey where
  pem : Bytes
deriving DecidableEq

/-- Modelled from the spec (§4.3): the public half is derivable from the
private key (`private_key.public_key()`). -/
def publicKeyOf (sk : RSAPrivateKey) : Bytes := sk.pem

/-- Model of `HybridCrypto.generate_rsa_keypair`; the fresh randomness of
key generation is the oracle argument `seed`. -/
def generate_rsa_keypair (seed : Bytes) : RSAPrivateKey × Bytes :=
  (⟨seed⟩, publicKeyOf ⟨seed⟩)

/-- Model of `serialization.load_pem_private_key` (external): recovers
the key object from its serialized bytes. -/
def load_pem_private_key (pem : Bytes) : Option RSAPrivateKey := some ⟨pem⟩

/-- Parse a `lenCode` prefix back off a byte string. -/
def parseLen : Bytes → Option (Nat × Bytes)
  | [] => none
  | b :: rest =>
      if b < 255 then some (b, rest)
      else (parseLen rest).map (fun p => (p.1 + 255, p.2))

theorem parseLen_lenCode (n : Nat) (x : Bytes) :
    parseLen (lenCode n ++ x) = some (n, x) := by
  induction n using Nat.strong_induction_on with
  | _ n ih =>
      by_cases h : n < 255
      · rw [lenCode_lt h, List.cons_append, List.nil_append, parseLen, if_pos h]
      · rw [lenCode_ge h, List.cons_append, parseLen,
          if_neg (show ¬ (255 : Nat) < 255 by omega), ih (n - 255) (by omega),
          Option.map_some']
        simp only [Option.some.injEq, Prod.mk.injEq, and_true]
        omega

/-- Modelled from the spec (§4.3): OAEP wrapping by the external
library.  The ciphertext binds the recipient public key, embeds the
padding randomness `r`, and the message is recoverable exactly under the
matching private key. -/
def oaepEncrypt (pub msg r : Bytes) : Bytes :=
  lenCode pub.length ++ pub ++ (lenCode r.length ++ (r ++ msg))

/-- Modelled from the spec (§4.3): OAEP unwrapping under the private
key; fails on a ciphertext not addressed to this key. -/
def oaepDecrypt (sk : RSAPrivateKey) (ct : Bytes) : Option Bytes := do
  let (kl, rest) ← parseLen ct
  if rest.take kl = publicKeyOf sk ∧ kl = (publicKeyOf sk).length then do
    let (rl, rest3) ← parseLen (rest.drop kl)
    if rl ≤ rest3.length then some (rest3.drop rl) else none
  else none

theorem oaepDecrypt_encrypt (sk : RSAPrivateKey) (msg r : Bytes) :
    oaepDecrypt sk (oaepEncrypt (publicKeyOf sk) msg r) = some msg := by
  unfold oaepEncrypt oaepDecrypt
  rw [List.append_assoc, parseLen_lenCode]
  simp only [Option.bind_eq_bind, Option.some_bind]
  rw [List.take_left, List.drop_left]
  rw [if_pos (by simp), parseLen_lenCode]
  simp only [Option.bind_eq_bind, Option.some_bind]
  rw [if_pos (by simp), List.drop_left]

theorem oaepEncrypt_byteOk {pub msg r : Bytes}
    (hp : ByteOk pub) (hm : ByteOk msg) (hr : ByteOk r) :
    ByteOk (oaepEncrypt pub msg r) := by
  intro b hb
  unfold oaepEncrypt at hb
  rcases List.mem_append.1 hb with h | h
  · rcases List.mem_append.1 h with h | h
    · exact lenCode_byteOk _ b h
    · exact hp b h
  · rcases List.mem_append.1 h with h | h
    · exact lenCode_byteOk _ b h
    · rcases List.mem_append.1 h with h | h
      · exact hr b h
      · exact hm b h

/-! ## crypto_hybrid.py: `HybridCrypto` and `VaultSession`. -/

/-- Modelled from the spec (§4.1): Argon2id key derivation by the
external library — deterministic in `(salt, password)` and, as the
idealization of a collision-resistant memory-hard KDF, injective. -/
def argon2id (salt : Bytes) (password : Str) : Bytes :=
  lenCode salt.length ++ salt ++ utf8Encode password

theorem argon2id_byteOk {salt : Bytes} (hs : ByteOk salt) (password : Str) :
    ByteOk (argon2id salt password) := by
  intro b hb
  unfold argon2id at hb
  rcases List.mem_append.1 hb with h | h
  · rcases List.mem_append.1 h with h | h
    · exact lenCode_byteOk _ b h
    · exact hs b h
  · exact utf8Encode_byteOk password b h

/-- Model of `HybridCrypto.generate_dek`: the 32 random bytes are the
oracle argument. -/
def generate_dek (random32 : Bytes) : Bytes := random32

/-- Model of `HybridCrypto.encrypt_private_key`; `salt` and `nonce`
stand for the `os.urandom(16)` / `os.urandom(12)` draws.  Returns the
blob `salt.nonce.tag.ciphertext` (all base64). -/
def encrypt_private_key (sk : RSAPrivateKey) (master_password : Str)
    (salt nonce : Bytes) : Str :=
  let derived_key := argon2id salt master_password
  let pem := sk.pem
  let enc := aeadEncrypt derived_key nonce pem
  joinDot [b64Encode salt, b64Encode nonce, b64Encode enc.1, b64Encode enc.2]

/-- The `try:` body of `HybridCrypto.decrypt_private_key`; any internal
exception is `none`. -/
def decryptPrivateKeyInner (encrypted_blob : Str) (master_password : Str) :
    Option RSAPrivateKey := do
  let parts ← (splitOnDot encrypted_blob).mapM b64Decode
  match parts with
  | [salt, nonce, tag, ciphertext] => do
      let pem ← aeadDecrypt (argon2id salt master_password) nonce tag ciphertext
      load_pem_private_key pem
  | _ => none

/-- Model of `HybridCrypto.decrypt_private_key`: every failure inside
the `try` is re-raised as the single error
`ValueError("Invalid password or corrupted key data")`. -/
def decrypt_private_key (encrypted_blob : Str) (master_password : Str) :
    Except String RSAPrivateKey :=
  match decryptPrivateKeyInner encrypted_blob master_password with
  | some sk => .ok sk
  | none => .error "Invalid password or corrupted key data"

/-- Model of `HybridCrypto.encrypt_dek` (OAEP randomness `r` is the
oracle argument).  Returns the base64 string of the wrapped DEK. -/
def encrypt_dek (dek : Bytes) (pub : Bytes) (r : Bytes) : Str :=
  b64Encode (oaepEncrypt pub dek r)

/-- Model of `HybridCrypto.decrypt_dek`. -/
def decrypt_dek (encrypted_dek : Str) (sk : RSAPrivateKey) : Option Bytes := do
  let encrypted_bytes ← b64Decode encrypted_dek
  oaepDecrypt sk encrypted_bytes

/-- Model of `HybridCrypto.serialize_public_key` (external PEM export,
abstracted to an injective textual encoding). -/
def serialize_public_key (pub : Bytes) : Str := b64Encode pub

/-- Model of `HybridCrypto.encrypt_data` (the fresh `os.urandom(12)`
nonce is the oracle argument).  Empty plaintext returns the empty stored
value without any cipher work; otherwise the blob is
`nonce.tag.ciphertext` (all base64). -/
def encrypt_data (data : Str) (dek : Bytes) (nonce : Bytes) : Str :=
  if data = [] then []
  else
    let enc := aeadEncrypt dek nonce (utf8Encode data)
    joinDot [b64Encode nonce, b64Encode enc.1, b64Encode enc.2]

/-- The `try:` body of `HybridCrypto.decrypt_data`, with the distinct
internal exceptions it can raise: base64 errors, the explicit
`ValueError("Invalid data format")` when the blob does not split into
three parts, the AEAD `InvalidTag`, and UTF-8 decode errors. -/
def decryptDataInner (encrypted_blob : Str) (dek : Bytes) : Except String Str :=
  match (splitOnDot encrypted_blob).mapM b64Decode with
  | none => .error "binascii.Error"
  | some parts =>
      match parts with
      | [nonce, tag, ciphertext] =>
          match aeadDecrypt dek nonce tag ciphertext with
          | some pt =>
              match utf8Decode pt with
              | some s => .ok s
              | none => .error "UnicodeDecodeError"
          | none => .error "InvalidTag"
      | _ => .error "Invalid data format"

/-- Model of `HybridCrypto.decrypt_data`: the empty blob short-circuits
to the empty string; any exception inside the `try` is re-raised as the
single error `ValueError("Decryption failed")`. -/
def decrypt_data (encrypted_blob : Str) (dek : Bytes) : Except String Str :=
  if encrypted_blob = [] then .ok []
  else
    match decryptDataInner encrypted_blob dek with
    | .ok s => .ok s
    | .error _ => .error "Decryption failed"

/-- Model of `VaultSession` (crypto_hybrid.py): the in-memory key
material. -/
structure VaultSession where
  private_key : Option RSAPrivateKey
  public_key : Option Bytes
  dek : Option Bytes
deriving DecidableEq

/-- Model of `VaultSession.is_active`. -/
def VaultSession.is_active (s : VaultSession) : Bool :=
  s.dek.isSome && s.private_key.isSome

/-- Model of `VaultSession.load_keys`: decrypt the private key, then
unwrap the DEK with it; errors propagate to the caller. -/
def VaultSession.load_keys (encrypted_priv_key encrypted_dek : Str)
    (master_password : Str) : Except String VaultSession :=
  match decrypt_private_key encrypted_priv_key master_password with
  | .error e => .error e
  | .ok sk =>
      match decrypt_dek encrypted_dek sk with
      | none => .error "OAEP decryption failed"
      | some dek => .ok ⟨some sk, some (publicKeyOf sk), some dek⟩

theorem decrypt_data_encrypt_data (s : Str) (dek nonce : Bytes)
    (hd : ByteOk dek) (hn : ByteOk nonce) :
    decrypt_data (encrypt_data s dek nonce) dek = .ok s := by
  by_cases hs : s = []
  · subst hs
    rw [encrypt_data, if_pos rfl, decrypt_data, if_pos rfl]
  · have hpt : ByteOk (utf8Encode s) := utf8Encode_byteOk s
    have hct : ByteOk (xorKs dek nonce (utf8Encode s)) := xorKs_byteOk _ _ _ hpt
    have htag : ByteOk (macBytes dek nonce (xorKs dek nonce (utf8Encode s))) :=
      macBytes_byteOk hd hn hct
    rw [encrypt_data, if_neg hs]
    simp only [aeadEncrypt]
    rw [decrypt_data, if_neg (joinDot3_ne_nil _ _ _)]
    simp only [decryptDataInner,
      splitOnDot_joinDot3 _ _ _ (b64Encode_no_dot _ hn) (b64Encode_no_dot _ htag)
        (b64Encode_no_dot _ hct),
      List.mapM_cons, List.mapM_nil,
      b64Encode_decode _ hn, b64Encode_decode _ htag, b64Encode_decode _ hct,
      Option.pure_def, Option.bind_eq_bind, Option.some_bind]
    rw [aeadDecrypt, if_pos rfl, xorKs_involutive]
    simp only [utf8Decode_encode]

theorem decrypt_private_key_encrypt (sk : RSAPrivateKey) (pw : Str)
    (salt nonce : Bytes) (hs : ByteOk salt) (hn : ByteOk nonce)
    (hp : ByteOk sk.pem) :
    decrypt_private_key (encrypt_private_key sk pw salt nonce) pw = .ok sk := by
  have hkey : ByteOk (argon2id salt pw) := argon2id_byteOk hs pw
  have hct : ByteOk (xorKs (argon2id salt pw) nonce sk.pem) := xorKs_byteOk _ _ _ hp
  have htag : ByteOk (macBytes (argon2id salt pw) nonce
      (xorKs (argon2id salt pw) nonce sk.pem)) := macBytes_byteOk hkey hn hct
  rw [encrypt_private_key]
  simp only [aeadEncrypt]
  rw [decrypt_private_key]
  simp only [decryptPrivateKeyInner,
    splitOnDot_joinDot4 _ _ _ _ (b64Encode_no_dot _ hs) (b64Encode_no_dot _ hn)
      (b64Encode_no_dot _ htag) (b64Encode_no_dot _ hct),
    List.mapM_cons, List.mapM_nil,
    b64Encode_decode _ hs, b64Encode_decode _ hn, b64Encode_decode _ htag,
    b64Encode_decode _ hct,
    Option.pure_def, Option.bind_eq_bind, Option.some_bind]
  rw [aeadDecrypt, if_pos rfl, xorKs_involutive]
  rfl

theorem decrypt_dek_encrypt (sk : RSAPrivateKey) (dek r : Bytes)
    (hp : ByteOk sk.pem) (hd : ByteOk dek) (hr : ByteOk r) :
    decrypt_dek (encrypt_dek dek (publicKeyOf sk) r) sk = some dek := by
  have hoaep : ByteOk (oaepEncrypt (publicKeyOf sk) dek r) :=
    oaepEncrypt_byteOk hp hd hr
  rw [encrypt_dek, decrypt_dek]
  simp only [b64Encode_decode _ hoaep, Option.bind_eq_bind, Option.some_bind]
  exact oaepDecrypt_encrypt sk dek r

theorem load_keys_roundtrip (sk : RSAPrivateKey) (pw : Str)
    (salt nonce dek r : Bytes) (hs : ByteOk salt) (hn : ByteOk nonce)
    (hp : ByteOk sk.pem) (hd : ByteOk dek) (hr : ByteOk r) :
    VaultSession.load_keys (encrypt_private_key sk pw salt nonce)
      (encrypt_dek dek (publicKeyOf sk) r) pw =
      .ok ⟨some sk, some (publicKeyOf sk), some dek⟩ := by
  simp only [VaultSession.load_keys,
    decrypt_private_key_encrypt sk pw salt nonce hs hn hp,
    decrypt_dek_encrypt sk dek r hp hd hr]

/-! ## crypto.py: the legacy Fernet scheme. -/

/-- Modelled from the spec (§4.1): PBKDF2-HMAC-SHA256 key derivation
with the fixed `VAULT_SALT` (external library) — deterministic in the
password and, as the idealization of a collision-resistant KDF,
injective. -/
def pbkdf2Key (password : Str) : Bytes := utf8Encode password

/-- Model of `VaultCrypto` (crypto.py): holds the Fernet cipher built
from the key derived from the master password. -/
structure VaultCrypto where
  key : Bytes
deriving DecidableEq

/-- Model of `get_crypto` / `VaultCrypto.__init__`. -/
def get_crypto (master_password : Str) : VaultCrypto :=
  ⟨pbkdf2Key master_password⟩

/-- Modelled from the spec: decryption of a Fernet token by the external
library — authenticated single-key decryption that fails
(`InvalidToken`) on a wrong key or a modified token.  The concrete
Fernet wire layout is opaque to this repository's code and is abstracted
to the same `iv/tag/ciphertext` triple as the AEAD model. -/
def fernetDecrypt (key : Bytes) (token : Str) : Option Bytes :=
  match (splitOnDot token).mapM b64Decode with
  | none => none
  | some parts =>
      match parts with
      | [iv, tag, ct] => aeadDecrypt key iv tag ct
      | _ => none

/-- Model of `VaultCrypto.encrypt`: empty plaintext maps to the empty
string without touching the cipher; otherwise the Fernet token for the
plaintext (`iv` is the token's fresh randomness). -/
def VaultCrypto.encrypt (c : VaultCrypto) (plaintext : Str) (iv : Bytes) : Str :=
  if plaintext = [] then []
  else
    let enc := aeadEncrypt c.key iv (utf8Encode plaintext)
    joinDot [b64Encode iv, b64Encode enc.1, b64Encode enc.2]

/-- Model of `VaultCrypto.decrypt`: empty ciphertext maps to the empty
string; the library's `InvalidToken` is re-raised as
`ValueError("Invalid master password or corrupted data")` (a UTF-8
error from `.decode()` would propagate unchanged). -/
def VaultCrypto.decrypt (c : VaultCrypto) (ciphertext : Str) : Except String Str :=
  if ciphertext = [] then .ok []
  else
    match fernetDecrypt c.key ciphertext with
    | none => .error "Invalid master password or corrupted data"
    | some pt =>
        match utf8Decode pt with
        | some s => .ok s
        | none => .error "UnicodeDecodeError"

/-- Model of `VaultCrypto.verify_password`: encrypts the test value and
decrypts it again with the same cipher, comparing the result (`iv` is
the randomness drawn by the internal encrypt call); any exception yields
`false`. -/
def VaultCrypto.verify_password (c : VaultCrypto) (iv : Bytes)
    (test_value : Str := "vault-test".data) : Bool :=
  match c.decrypt (c.encrypt test_value iv) with
  | .ok d => decide (d = test_value)
  | .error _ => false

theorem VaultCrypto.decrypt_encrypt (c : VaultCrypto) (pt : Str) (iv : Bytes)
    (hk : ByteOk c.key) (hiv : ByteOk iv) :
    c.decrypt (c.encrypt pt iv) = .ok pt := by
  by_cases hp : pt = []
  · subst hp
    rw [VaultCrypto.encrypt, if_pos rfl, VaultCrypto.decrypt, if_pos rfl]
  · have hpt : ByteOk (utf8Encode pt) := utf8Encode_byteOk pt
    have hct : ByteOk (xorKs c.key iv (utf8Encode pt)) := xorKs_byteOk _ _ _ hpt
    have htag : ByteOk (macBytes c.key iv (xorKs c.key iv (utf8Encode pt))) :=
      macBytes_byteOk hk hiv hct
    rw [VaultCrypto.encrypt, if_neg hp]
    simp only [aeadEncrypt]
    rw [VaultCrypto.decrypt, if_neg (joinDot3_ne_nil _ _ _)]
    simp only [fernetDecrypt,
      splitOnDot_joinDot3 _ _ _ (b64Encode_no_dot _ hiv) (b64Encode_no_dot _ htag)
        (b64Encode_no_dot _ hct),
      List.mapM_cons, List.mapM_nil,
      b64Encode_decode _ hiv, b64Encode_decode _ htag, b64Encode_decode _ hct,
      Option.pure_def, Option.bind_eq_bind, Option.some_bind]
    rw [aeadDecrypt, if_pos rfl, xorKs_involutive]
    simp only [utf8Decode_encode]

/-- With any password-derived key and well-formed randomness,
`verify_password` always returns `true`: it round-trips a fresh
encryption under the very key being "verified", so it cannot detect a
wrong password. -/
theorem verify_password_always_true (pw : Str) (iv : Bytes) (hiv : ByteOk iv) :
    (get_crypto pw).verify_password iv = true := by
  rw [VaultCrypto.verify_password,
    VaultCrypto.decrypt_encrypt (get_crypto pw) _ _ (by exact utf8Encode_byteOk pw) hiv]
  simp

/-! ## main.py: the Vault API boundary. -/

/-- Model of the module-level mutable `_crypto` global of main.py;
`none` is the `Locked` state. -/
abbrev AppState := Option VaultCrypto

/-- Model of a FastAPI `HTTPException` (status code and detail). -/
structure HttpError where
  status : Nat
  detail : Str
deriving DecidableEq

/-- Model of `get_crypto_instance`: raises 401 while the vault is
locked. -/
def get_crypto_instance (st : AppState) : Except HttpError VaultCrypto :=
  match st with
  | none => .error ⟨401, "Vault is locked. Unlock first with /unlock".data⟩
  | some c => .ok c

/-- Model of the `UnlockResponse` schema. -/
structure UnlockResponse where
  success : Bool
  message : Str
deriving DecidableEq

/-- Model of the `/unlock` endpoint `unlock_vault`; `iv` is the fresh
randomness drawn by `verify_password`'s internal encrypt call.  Returns
the HTTP response together with the new value of the `_crypto` global
(which is assigned only in the `verify_password()` success branch; the
`except` branch of the source returns a failure response and is
unreachable in the model because key derivation and `verify_password`
are total). -/
def unlock_vault (master_password : Str) (iv : Bytes) (st : AppState) :
    UnlockResponse × AppState :=
  let crypto := get_crypto master_password
  if crypto.verify_password iv then
    (⟨true, "Vault unlocked successfully".data⟩, some crypto)
  else
    (⟨false, "Invalid master password".data⟩, st)

/-- Model of the `/lock` endpoint `lock_vault`. -/
def lock_vault (_st : AppState) : UnlockResponse × AppState :=
  (⟨true, "Vault locked".data⟩, none)

/-- The `is_unlocked` flag reported by `/health`
(`_crypto is not None`). -/
def is_unlocked (st : AppState) : Bool := st.isSome

/-! ## models.py: the persisted entities (timestamps omitted — they are
filled by the database layer and no claim concerns them; the `Float`
column `current_value` is modelled as `Int`, since the code only stores
and sums it). -/

/-- Model of the `Credential` row: sensitive fields are stored
encrypted, `none` for SQL `NULL`. -/
structure Credential where
  id : Str
  platform_id : Str
  label : Str
  username_encrypted : Option Str
  password_encrypted : Option Str
  pin_encrypted : Option Str
  extra_encrypted : Option Str
  notes_encrypted : Option Str
deriving DecidableEq

/-- Model of the `Platform` row. -/
structure Platform where
  id : Str
  name : Str
  type : Str
  website : Option Str
  logo_url : Option Str
  notes : Option Str
  is_active : Bool
deriving DecidableEq

/-- Model of the `PlatformAsset` row. -/
structure PlatformAsset where
  id : Str
  platform_id : Str
  name : Str
  asset_type : Option Str
  current_value : Option Int
  currency : Str
  finanzas_asset_id : Option Str
  account_number : Option Str
  notes : Option Str
deriving DecidableEq

/-- Model of the `KeyStore` row (hybrid key record). -/
structure KeyStore where
  id : Str
  public_key : Str
  private_key_encrypted : Str
  dek_encrypted : Str
deriving DecidableEq

/-- The vault database: the four tables as lists of rows. -/
structure VaultDB where
  platforms : List Platform
  credentials : List Credential
  assets : List PlatformAsset
  keystore : List KeyStore
deriving DecidableEq

/-! ## schemas.py: request payloads (an outer `Option` on an update
field models pydantic's provided/unset distinction of
`model_dump(exclude_unset=True)`). -/

/-- Model of `PlatformCreate`. -/
structure PlatformCreate where
  id : Option Str
  name : Str
  type : Str
  website : Option Str
  logo_url : Option Str
  notes : Option Str

/-- Model of `PlatformUpdate`. -/
structure PlatformUpdate where
  name : Option Str
  type : Option Str
  website : Option (Option Str)
  logo_url : Option (Option Str)
  notes : Option (Option Str)
  is_active : Option Bool

/-- Model of `CredentialCreate`. -/
structure CredentialCreate where
  label : Str
  username : Option Str
  password : Option Str
  pin : Option Str
  extra : Option Str
  notes : Option Str

/-- Model of `CredentialUpdate` (`none` = field not provided; the source
itself treats an empty provided string as "clear the field"). -/
structure CredentialUpdate where
  label : Option Str
  username : Option Str
  password : Option Str
  pin : Option Str
  extra : Option Str
  notes : Option Str

/-- Model of `PlatformAssetCreate`. -/
structure PlatformAssetCreate where
  name : Str
  asset_type : Option Str
  current_value : Option Int
  currency : Str
  finanzas_asset_id : Option Str
  account_number : Option Str
  notes : Option Str

/-- Model of `PlatformAssetUpdate`. -/
structure PlatformAssetUpdate where
  name : Option Str
  asset_type : Option (Option Str)
  current_value : Option (Option Int)
  currency : Option Str
  finanzas_asset_id : Option (Option Str)
  account_number : Option (Option Str)
  notes : Option (Option Str)

/-- Model of `CredentialResponse`. -/
structure CredentialResponse where
  id : Str
  platform_id : Str
  label : Str
  username : Option Str
  password : Option Str
  pin : Option Str
  extra : Option Str
  notes : Option Str
deriving DecidableEq

/-- Model of `PlatformResponse`. -/
structure PlatformResponse where
  id : Str
  name : Str
  type : Str
  website : Option Str
  logo_url : Option Str
  notes : Option Str
  is_active : Bool
  credential_count : Nat
  asset_count : Nat
  total_value : Int
deriving DecidableEq

/-- Model of `PlatformAssetResponse`. -/
structure PlatformAssetResponse where
  id : Str
  platform_id : Str
  name : Str
  asset_type : Option Str
  current_value : Option Int
  currency : Str
  finanzas_asset_id : Option Str
  account_number : Option Str
  notes : Option Str
deriving DecidableEq

/-- Model of `PlatformDetailResponse`. -/
structure PlatformDetailResponse where
  base : PlatformResponse
  credentials : List CredentialResponse
  assets : List PlatformAssetResponse
deriving DecidableEq

/-- The body of a successful endpoint response. -/
inductive RespData
  | platforms (ps : List PlatformResponse)
  | platform (p : PlatformResponse)
  | platformDetail (d : PlatformDetailResponse)
  | credential (c : CredentialResponse)
  | asset (a : PlatformAssetResponse)
  | message (m : Str)
deriving DecidableEq

/-! ## main.py: the cipher-consuming endpoint handlers. -/

/-- `sum(a.current_value or 0 for a in platform.assets)`. -/
def sumValues (assets : List PlatformAsset) : Int :=
  assets.foldl (fun acc a => acc + a.current_value.getD 0) 0

/-- Model of `platform_to_response` (counts and total over the
platform's relationship rows). -/
def platform_to_response (db : VaultDB) (p : Platform) : PlatformResponse :=
  { id := p.id, name := p.name, type := p.type, website := p.website,
    logo_url := p.logo_url, notes := p.notes, is_active := p.is_active,
    credential_count := (db.credentials.filter (fun cr => cr.platform_id == p.id)).length,
    asset_count := (db.assets.filter (fun a => a.platform_id == p.id)).length,
    total_value := sumValues (db.assets.filter (fun a => a.platform_id == p.id)) }

/-- Model of `PlatformAssetResponse` construction from a row. -/
def asset_to_response (a : PlatformAsset) : PlatformAssetResponse :=
  { id := a.id, platform_id := a.platform_id, name := a.name,
    asset_type := a.asset_type, current_value := a.current_value,
    currency := a.currency, finanzas_asset_id := a.finanzas_asset_id,
    account_number := a.account_number, notes := a.notes }

/-- `crypto.decrypt(f) if f else None`: decrypt a stored field when it
is truthy; an uncaught `ValueError` surfaces as a 500 response. -/
def decryptIfPresent (c : VaultCrypto) (f : Option Str) :
    Except HttpError (Option Str) :=
  match f with
  | none => .ok none
  | some v =>
      if v = [] then .ok none
      else
        match c.decrypt v with
        | .ok s => .ok (some s)
        | .error e => .error ⟨500, e.data⟩

/-- `crypto.decrypt(f) if show_secrets and f else (mask if f else None)`. -/
def maskedField (c : VaultCrypto) (show_secrets : Bool) (mask : Str)
    (f : Option Str) : Except HttpError (Option Str) :=
  match f with
  | none => .ok none
  | some v =>
      if v = [] then .ok none
      else if show_secrets then
        match c.decrypt v with
        | .ok s => .ok (some s)
        | .error e => .error ⟨500, e.data⟩
      else .ok (some mask)

/-- The decrypted `CredentialResponse` assembled by `get_platform`. -/
def credential_to_response (c : VaultCrypto) (show_secrets : Bool)
    (cred : Credential) : Except HttpError CredentialResponse := do
  let username ← decryptIfPresent c cred.username_encrypted
  let password ← maskedField c show_secrets "••••••••".data cred.password_encrypted
  let pin ← maskedField c show_secrets "••••".data cred.pin_encrypted
  let extra ← maskedField c show_secrets "••••••••".data cred.extra_encrypted
  let notes ← decryptIfPresent c cred.notes_encrypted
  pure { id := cred.id, platform_id := cred.platform_id, label := cred.label,
         username := username, password := password, pin := pin,
         extra := extra, notes := notes }

/-- `crypto.encrypt(v) if v else None`: encrypt a payload field when it
is truthy (`iv` is the fresh Fernet randomness). -/
def encryptIfTruthy (c : VaultCrypto) (iv : Bytes) (f : Option Str) : Option Str :=
  match f with
  | none => none
  | some v => if v = [] then none else some (c.encrypt v iv)

/-- Model of `GET /platforms` (the `order_by(name)` of the result list
is not modelled; the rows are returned in table order). -/
def list_platforms (db : VaultDB) (tyFilter : Option Str) (active_only : Bool) :
    Except HttpError RespData :=
  let q : List Platform := db.platforms
  let q : List Platform := match tyFilter with
    | some t => q.filter (fun p => p.type == t)
    | none => q
  let q : List Platform := if active_only then q.filter (fun p => p.is_active) else q
  .ok (.platforms (q.map (platform_to_response db)))

/-- Model of `POST /platforms` (`genId` stands for
`generate_id(data.name)`, whose uuid suffix is randomness). -/
def create_platform (db : VaultDB) (data : PlatformCreate) (genId : Str) :
    Except HttpError RespData × VaultDB :=
  let platform_id := match data.id with
    | some v => if v = [] then genId else v
    | none => genId
  if db.platforms.any (fun p => p.id == platform_id) then
    (.error ⟨400, "Platform with ID ".data ++ platform_id ++ " already exists".data⟩, db)
  else
    let platform : Platform :=
      { id := platform_id, name := data.name, type := data.type.map Char.toUpper,
        website := data.website, logo_url := data.logo_url, notes := data.notes,
        is_active := true }
    let db' := { db with platforms := db.platforms ++ [platform] }
    (.ok (.platform (platform_to_response db' platform)), db')

/-- Model of `GET /platforms/{id}`: decrypts the platform's credentials
for display. -/
def get_platform (c : VaultCrypto) (db : VaultDB) (platform_id : Str)
    (show_secrets : Bool) : Except HttpError RespData :=
  match db.platforms.find? (fun p => p.id == platform_id) with
  | none => .error ⟨404, "Platform not found".data⟩
  | some p =>
      match (db.credentials.filter (fun cr => cr.platform_id == p.id)).mapM
          (credential_to_response c show_secrets) with
      | .error e => .error e
      | .ok credResponses =>
          let assets := (db.assets.filter (fun a => a.platform_id == p.id)).map
            asset_to_response
          .ok (.platformDetail
            { base := platform_to_response db p,
              credentials := credResponses, assets := assets })

/-- `setattr` loop of `PUT /platforms/{id}` (`type` uppercased when
truthy, exactly as in the source). -/
def applyPlatformUpdate (p : Platform) (u : PlatformUpdate) : Platform :=
  { p with
    name := u.name.getD p.name,
    type := match u.type with
      | some t => if t = [] then t else t.map Char.toUpper
      | none => p.type,
    website := u.website.getD p.website,
    logo_url := u.logo_url.getD p.logo_url,
    notes := u.notes.getD p.notes,
    is_active := u.is_active.getD p.is_active }

/-- Model of `PUT /platforms/{id}`. -/
def update_platform (db : VaultDB) (platform_id : Str) (data : PlatformUpdate) :
    Except HttpError RespData × VaultDB :=
  match db.platforms.find? (fun p => p.id == platform_id) with
  | none => (.error ⟨404, "Platform not found".data⟩, db)
  | some p =>
      let p' := applyPlatformUpdate p data
      let db' := { db with
        platforms := db.platforms.map (fun q => if q.id == platform_id then p' else q) }
      (.ok (.platform (platform_to_response db' p')), db')

/-- Model of `DELETE /platforms/{id}` (the ORM cascade also removes the
platform's credentials and assets). -/
def delete_platform (db : VaultDB) (platform_id : Str) :
    Except HttpError RespData × VaultDB :=
  match db.platforms.find? (fun p => p.id == platform_id) with
  | none => (.error ⟨404, "Platform not found".data⟩, db)
  | some _ =>
      let db' : VaultDB :=
        { db with
          platforms := db.platforms.filter (fun p => !(p.id == platform_id)),
          credentials := db.credentials.filter (fun cr => !(cr.platform_id == platform_id)),
          assets := db.assets.filter (fun a => !(a.platform_id == platform_id)) }
      (.ok (.message ("Platform ".data ++ platform_id ++ " deleted".data)), db')

/-- Model of `POST /platforms/{id}/credentials` (`newId` stands for the
uuid-based row id, `rng i` for the Fernet randomness of the `i`-th
encrypt call). -/
def create_credential (c : VaultCrypto) (db : VaultDB) (platform_id : Str)
    (data : CredentialCreate) (newId : Str) (rng : Nat → Bytes) :
    Except HttpError RespData × VaultDB :=
  if db.platforms.any (fun p => p.id == platform_id) then
    let credential : Credential :=
      { id := newId, platform_id := platform_id, label := data.label,
        username_encrypted := encryptIfTruthy c (rng 0) data.username,
        password_encrypted := encryptIfTruthy c (rng 1) data.password,
        pin_encrypted := encryptIfTruthy c (rng 2) data.pin,
        extra_encrypted := encryptIfTruthy c (rng 3) data.extra,
        notes_encrypted := encryptIfTruthy c (rng 4) data.notes }
    let db' := { db with credentials := db.credentials ++ [credential] }
    (.ok (.credential
      { id := credential.id, platform_id := credential.platform_id,
        label := credential.label, username := data.username,
        password := match data.password with
          | some v => if v = [] then none else some "••••••••".data
          | none => none,
        pin := match data.pin with
          | some v => if v = [] then none else some "••••".data
          | none => none,
        extra := match data.extra with
          | some v => if v = [] then none else some "••••••••".data
          | none => none,
        notes := data.notes }), db')
  else (.error ⟨404, "Platform not found".data⟩, db)

/-- The field updates of `PUT /credentials/{id}`. -/
def applyCredentialUpdate (c : VaultCrypto) (cred : Credential)
    (data : CredentialUpdate) (rng : Nat → Bytes) : Credential :=
  { cred with
    label := data.label.getD cred.label,
    username_encrypted := match data.username with
      | some v => encryptIfTruthy c (rng 0) (some v)
      | none => cred.username_encrypted,
    password_encrypted := match data.password with
      | some v => encryptIfTruthy c (rng 1) (some v)
      | none => cred.password_encrypted,
    pin_encrypted := match data.pin with
      | some v => encryptIfTruthy c (rng 2) (some v)
      | none => cred.pin_encrypted,
    extra_encrypted := match data.extra with
      | some v => encryptIfTruthy c (rng 3) (some v)
      | none => cred.extra_encrypted,
    notes_encrypted := match data.notes with
      | some v => encryptIfTruthy c (rng 4) (some v)
      | none => cred.notes_encrypted }

/-- Model of `PUT /credentials/{id}`. -/
def update_credential (c : VaultCrypto) (db : VaultDB) (credential_id : Str)
    (data : CredentialUpdate) (rng : Nat → Bytes) :
    Except HttpError RespData × VaultDB :=
  match db.credentials.find? (fun cr => cr.id == credential_id) with
  | none => (.error ⟨404, "Credential not found".data⟩, db)
  | some cred =>
      let cred' := applyCredentialUpdate c cred data rng
      let db' := { db with
        credentials := db.credentials.map
          (fun q => if q.id == credential_id then cred' else q) }
      match decryptIfPresent c cred'.username_encrypted with
      | .error e => (.error e, db')
      | .ok username =>
          match decryptIfPresent c cred'.notes_encrypted with
          | .error e => (.error e, db')
          | .ok notes =>
              (.ok (.credential
                { id := cred'.id, platform_id := cred'.platform_id,
                  label := cred'.label, username := username,
                  password := match cred'.password_encrypted with
                    | some v => if v = [] then none else some "••••••••".data
                    | none => none,
                  pin := match cred'.pin_encrypted with
                    | some v => if v = [] then none else some "••••".data
                    | none => none,
                  extra := match cred'.extra_encrypted with
                    | some v => if v = [] then none else some "••••••••".data
                    | none => none,
                  notes := notes }), db')

/-- Model of `DELETE /credentials/{id}`. -/
def delete_credential (db : VaultDB) (credential_id : Str) :
    Except HttpError RespData × VaultDB :=
  match db.credentials.find? (fun cr => cr.id == credential_id) with
  | none => (.error ⟨404, "Credential not found".data⟩, db)
  | some _ =>
      ( .ok (.message ("Credential ".data ++ credential_id ++ " deleted".data)),
        { db with credentials :=
            db.credentials.filter (fun cr => !(cr.id == credential_id)) } )

/-- Model of `POST /platforms/{id}/assets`. -/
def create_asset (db : VaultDB) (platform_id : Str) (data : PlatformAssetCreate)
    (newId : Str) : Except HttpError RespData × VaultDB :=
  if db.platforms.any (fun p => p.id == platform_id) then
    let asset : PlatformAsset :=
      { id := newId, platform_id := platform_id, name := data.name,
        asset_type := data.asset_type, current_value := data.current_value,
        currency := data.currency, finanzas_asset_id := data.finanzas_asset_id,
        account_number := data.account_number, notes := data.notes }
    ( .ok (.asset (asset_to_response asset)),
      { db with assets := db.assets ++ [asset] } )
  else (.error ⟨404, "Platform not found".data⟩, db)

/-- The `setattr` loop of `PUT /assets/{id}`. -/
def applyAssetUpdate (a : PlatformAsset) (u : PlatformAssetUpdate) : PlatformAsset :=
  { a with
    name := u.name.getD a.name,
    asset_type := u.asset_type.getD a.asset_type,
    current_value := u.current_value.getD a.current_value,
    currency := u.currency.getD a.currency,
    finanzas_asset_id := u.finanzas_asset_id.getD a.finanzas_asset_id,
    account_number := u.account_number.getD a.account_number,
    notes := u.notes.getD a.notes }

/-- Model of `PUT /assets/{id}`. -/
def update_asset (db : VaultDB) (asset_id : Str) (data : PlatformAssetUpdate) :
    Except HttpError RespData × VaultDB :=
  match db.assets.find? (fun a => a.id == asset_id) with
  | none => (.error ⟨404, "Asset not found".data⟩, db)
  | some a =>
      let a' := applyAssetUpdate a data
      ( .ok (.asset (asset_to_response a')),
        { db with assets :=
            db.assets.map (fun q => if q.id == asset_id then a' else q) } )

/-- Model of `DELETE /assets/{id}`. -/
def delete_asset (db : VaultDB) (asset_id : Str) :
    Except HttpError RespData × VaultDB :=
  match db.assets.find? (fun a => a.id == asset_id) with
  | none => (.error ⟨404, "Asset not found".data⟩, db)
  | some _ =>
      ( .ok (.message ("Asset ".data ++ asset_id ++ " deleted".data)),
        { db with assets := db.assets.filter (fun a => !(a.id == asset_id)) } )

/-- The cipher-consuming boundary operations of main.py: every endpoint
that declares `crypto: VaultCrypto = Depends(get_crypto_instance)`,
together with its request payload (generated ids and encryption
randomness appear as oracle arguments). -/
inductive VaultOp
  | listPlatforms (tyFilter : Option Str) (active_only : Bool)
  | createPlatform (data : PlatformCreate) (genId : Str)
  | getPlatform (platform_id : Str) (show_secrets : Bool)
  | updatePlatform (platform_id : Str) (data : PlatformUpdate)
  | deletePlatform (platform_id : Str)
  | createCredential (platform_id : Str) (data : CredentialCreate) (newId : Str)
  | updateCredential (credential_id : Str) (data : CredentialUpdate)
  | deleteCredential (credential_id : Str)
  | createAsset (platform_id : Str) (data : PlatformAssetCreate) (newId : Str)
  | updateAsset (asset_id : Str) (data : PlatformAssetUpdate)
  | deleteAsset (asset_id : Str)

/-- The handler body of each operation, run only once the crypto
dependency has been resolved. -/
def run_handler (op : VaultOp) (c : VaultCrypto) (rng : Nat → Bytes)
    (db : VaultDB) : Except HttpError RespData × VaultDB :=
  match op with
  | .listPlatforms tyFilter active_only => (list_platforms db tyFilter active_only, db)
  | .createPlatform data genId => create_platform db data genId
  | .getPlatform platform_id show_secrets => (get_platform c db platform_id show_secrets, db)
  | .updatePlatform platform_id data => update_platform db platform_id data
  | .deletePlatform platform_id => delete_platform db platform_id
  | .createCredential platform_id data newId => create_credential c db platform_id data newId rng
  | .updateCredential credential_id data => update_credential c db credential_id data rng
  | .deleteCredential credential_id => delete_credential db credential_id
  | .createAsset platform_id data newId => create_asset db platform_id data newId
  | .updateAsset asset_id data => update_asset db asset_id data
  | .deleteAsset asset_id => delete_asset db asset_id

/-- Model of FastAPI's dependency resolution: each of these endpoints
declares `crypto: VaultCrypto = Depends(get_crypto_instance)`, so
`get_crypto_instance` runs (and can raise 401) before the handler body
executes. -/
def dispatch (op : VaultOp) (st : AppState) (rng : Nat → Bytes) (db : VaultDB) :
    Except HttpError RespData × VaultDB :=
  match get_crypto_instance st with
  | .error e => (.error e, db)
  | .ok c => run_handler op c rng db

/-! ## migrate.py: the one-shot migration to the hybrid scheme.

`migrate.py` imports the legacy module as `old_crypto` and calls
`old_crypto.get_cipher(master_password)` and
`old_crypto.decrypt_value(cipher, value)`.  Neither function exists in
the current crypto.py (the script targets an earlier revision of that
module), so they are modelled from the spec (§4.6 step 2): the legacy
scheme derives its single key deterministically from the password — no
salt indirection — and decrypts each stored field under it, failing on
bad data. -/

/-- Modelled from the spec: `old_crypto.get_cipher` — the legacy cipher
for the password-derived single key (the same derivation the current
`VaultCrypto` constructor performs). -/
def get_cipher (master_password : Str) : VaultCrypto :=
  get_crypto master_password

/-- Modelled from the spec: `old_crypto.decrypt_value` — decrypt one
stored legacy value under the cipher; raises on failure. -/
def decrypt_value (cipher : VaultCrypto) (value : Str) : Except String Str :=
  cipher.decrypt value

/-- The randomness drawn during one migration run, as an oracle:
RSA key generation, the 32-byte DEK, the Argon2 salt, the private-key
AES-GCM nonce, the OAEP padding randomness, and one AES-GCM nonce per
re-encrypted field (`fieldNonce i j` for field `j` of credential `i`). -/
structure MigRandom where
  rsaSeed : Bytes
  dek : Bytes
  salt : Bytes
  pkNonce : Bytes
  oaepR : Bytes
  fieldNonce : Nat → Nat → Bytes

/-- `decrypt_value(cipher, f) if f else None` — a legacy field is
decrypted only when truthy; a failure propagates as the exception of the
per-credential `try`. -/
def migDecField (cipher : VaultCrypto) (f : Option Str) :
    Except String (Option Str) :=
  match f with
  | none => .ok none
  | some v =>
      if v = [] then .ok none
      else (decrypt_value cipher v).map some

/-- `hybrid.encrypt_data(v, dek) if v else None` — a decrypted value is
re-encrypted only when truthy. -/
def migEncField (dek : Bytes) (nonce : Bytes) (f : Option Str) : Option Str :=
  match f with
  | none => none
  | some v => if v = [] then none else some (encrypt_data v dek nonce)

/-- The `try:` body of the migration loop for one credential: decrypt
the five legacy fields, then re-encrypt the truthy values under the DEK
with a fresh nonce per call.  A decryption failure raises before any
field of the credential is reassigned. -/
def migrateCred (cipher : VaultCrypto) (dek : Bytes) (nonce : Nat → Bytes)
    (cred : Credential) : Except String Credential := do
  let username ← migDecField cipher cred.username_encrypted
  let password ← migDecField cipher cred.password_encrypted
  let pin ← migDecField cipher cred.pin_encrypted
  let extra ← migDecField cipher cred.extra_encrypted
  let notes ← migDecField cipher cred.notes_encrypted
  pure { cred with
    username_encrypted := migEncField dek (nonce 0) username,
    password_encrypted := migEncField dek (nonce 1) password,
    pin_encrypted := migEncField dek (nonce 2) pin,
    extra_encrypted := migEncField dek (nonce 3) extra,
    notes_encrypted := migEncField dek (nonce 4) notes }

/-- The externally visible outcome of a migration run. -/
inductive MigrateResult
  | alreadyMigrated
  | passwordRequired
  | migrated (successCount : Nat)
  | aborted (errorCount : Nat)
deriving DecidableEq

/-- Model of `migrate()`.  The staged ORM changes (re-encrypted
credentials and the added `KeyStore` row) reach the stored database only
through the `db.commit()` in the `error_count == 0` branch; the
`db.rollback()` of the error branch discards them all, leaving the store
exactly as it was.  A commit failure also rolls back; the commit itself
is modelled as succeeding. -/
def migrate (db : VaultDB) (master_password : Str) (rng : MigRandom) :
    MigrateResult × VaultDB :=
  if db.keystore ≠ [] then (.alreadyMigrated, db)
  else if master_password = [] then (.passwordRequired, db)
  else
    let old_cipher := get_cipher master_password
    let keypair := generate_rsa_keypair rng.rsaSeed
    let dek := generate_dek rng.dek
    let results := db.credentials.mapIdx
      (fun i cred => (cred, migrateCred old_cipher dek (rng.fieldNonce i) cred))
    let error_count := (results.filter (fun r => !(r.2.isOk))).length
    let success_count := (results.filter (fun r => r.2.isOk)).length
    let newCreds := results.map (fun r =>
      match r.2 with
      | .ok c' => c'
      | .error _ => r.1)
    let keystore : KeyStore :=
      { id := "primary".data,
        public_key := serialize_public_key keypair.2,
        private_key_encrypted :=
          encrypt_private_key keypair.1 master_password rng.salt rng.pkNonce,
        dek_encrypted := encrypt_dek dek keypair.2 rng.oaepR }
    if error_count = 0 then
      (.migrated success_count,
        { db with credentials := newCreds, keystore := db.keystore ++ [keystore] })
    else
      (.aborted error_count, db)

/-- `true` iff some legacy-encrypted field of the credential fails to
decrypt under the legacy cipher — the condition that sends the migration
loop into its `except` branch for this credential. -/
def credDecryptFails (cipher : VaultCrypto) (cred : Credential) : Bool :=
  !(migDecField cipher cred.username_encrypted).isOk ||
  !(migDecField cipher cred.password_encrypted).isOk ||
  !(migDecField cipher cred.pin_encrypted).isOk ||
  !(migDecField cipher cred.extra_encrypted).isOk ||
  !(migDecField cipher cred.notes_encrypted).isOk

theorem except_bind_error {ε α β : Type} (e : ε) (f : α → Except ε β) :
    (Except.error e : Except ε α) >>= f = Except.error e := rfl

theorem except_bind_ok {ε α β : Type} (a : α) (f : α → Except ε β) :
    (Except.ok a : Except ε α) >>= f = f a := rfl

theorem except_pure {ε α : Type} (a : α) :
    (pure a : Except ε α) = Except.ok a := rfl

theorem migrateCred_isOk (cipher : VaultCrypto) (dek : Bytes)
    (nonce : Nat → Bytes) (cred : Credential) :
    (migrateCred cipher dek nonce cred).isOk = !(credDecryptFails cipher cred) := by
  cases hu : migDecField cipher cred.username_encrypted <;>
    cases hp : migDecField cipher cred.password_encrypted <;>
      cases hpin : migDecField cipher cred.pin_encrypted <;>
        cases he : migDecField cipher cred.extra_encrypted <;>
          cases hn : migDecField cipher cred.notes_encrypted <;>
            simp [migrateCred, credDecryptFails, hu, hp, hpin, he, hn,
              Except.isOk, Except.toBool, except_bind_error, except_bind_ok,
              except_pure]

theorem filter_mapIdx_length {α β : Type} (l : List α) (f : Nat → α → β)
    (p : β → Bool) (q : α → Bool) (h : ∀ i a, p (f i a) = q a) :
    ((l.mapIdx f).filter p).length = (l.filter q).length := by
  induction l generalizing f with
  | nil => rfl
  | cons a l ih =>
      rw [List.mapIdx_cons]
      by_cases hq : q a
      · rw [List.filter_cons_of_pos (by rw [h 0 a]; exact hq),
          List.filter_cons_of_pos hq, List.length_cons, List.length_cons,
          ih (fun i => f (i + 1)) (fun i a => h (i + 1) a)]
      · rw [List.filter_cons_of_neg (by rw [h 0 a]; simpa using hq),
          List.filter_cons_of_neg hq,
          ih (fun i => f (i + 1)) (fun i a => h (i + 1) a)]

/-- Round-trip relation of C3 between a legacy-stored field and its
migrated replacement: where a truthy legacy value decrypts to a truthy
plaintext, the migrated blob decrypts to that same plaintext under the
new DEK; absent or empty values stay absent. -/
def fieldRoundTrips (cipher : VaultCrypto) (dek : Bytes)
    (orig new : Option Str) : Prop :=
  match orig with
  | none => new = none
  | some v =>
      if v = [] then new = none
      else
        match decrypt_value cipher v with
        | .error _ => False
        | .ok pt =>
            if pt = [] then new = none
            else ∃ blob, new = some blob ∧ decrypt_data blob dek = .ok pt

/-- Round-trip relation of C3 between a legacy credential row and its
migrated replacement. -/
def credRoundTrips (cipher : VaultCrypto) (dek : Bytes)
    (orig new : Credential) : Prop :=
  new.id = orig.id ∧ new.platform_id = orig.platform_id ∧
  new.label = orig.label ∧
  fieldRoundTrips cipher dek orig.username_encrypted new.username_encrypted ∧
  fieldRoundTrips cipher dek orig.password_encrypted new.password_encrypted ∧
  fieldRoundTrips cipher dek orig.pin_encrypted new.pin_encrypted ∧
  fieldRoundTrips cipher dek orig.extra_encrypted new.extra_encrypted ∧
  fieldRoundTrips cipher dek orig.notes_encrypted new.notes_encrypted

theorem migEncField_roundTrips (cipher : VaultCrypto) (dek nonce : Bytes)
    (hdek : ByteOk dek) (hnonce : ByteOk nonce) (orig : Option Str)
    (pt : Option Str) (hdec : migDecField cipher orig = .ok pt) :
    fieldRoundTrips cipher dek orig (migEncField dek nonce pt) := by
  match orig with
  | none =>
      rw [migDecField] at hdec
      cases hdec
      rfl
  | some v =>
      rw [migDecField] at hdec
      by_cases hv : v = []
      · rw [if_pos hv] at hdec
        cases hdec
        simp only [fieldRoundTrips, migEncField]
        rw [if_pos hv]
        trivial
      · rw [if_neg hv] at hdec
        simp only [fieldRoundTrips]
        rw [if_neg hv]
        cases hdv : decrypt_value cipher v with
        | error e => rw [hdv, Except.map] at hdec; cases hdec
        | ok w =>
            rw [hdv, Except.map] at hdec
            cases hdec
            simp only [hdv]
            by_cases hw : w = []
            · rw [if_pos hw]
              simp only [migEncField]
              rw [if_pos hw]
            · rw [if_neg hw]
              refine ⟨encrypt_data w dek nonce, ?_, ?_⟩
              · simp only [migEncField]
                rw [if_neg hw]
              · exact decrypt_data_encrypt_data w dek nonce hdek hnonce

theorem migrateCred_ok (cipher : VaultCrypto) (dek : Bytes)
    (hdek : ByteOk dek) (nonce : Nat → Bytes) (hn : ∀ j, ByteOk (nonce j))
    (cred : Credential) (hok : credDecryptFails cipher cred = false) :
    ∃ cred', migrateCred cipher dek nonce cred = .ok cred' ∧
      credRoundTrips cipher dek cred cred' := by
  have hisOk : (migrateCred cipher dek nonce cred).isOk = true := by
    rw [migrateCred_isOk, hok]
    rfl
  unfold credDecryptFails at hok
  simp only [Bool.or_eq_false_iff, Bool.not_eq_false'] at hok
  obtain ⟨⟨⟨⟨hu, hp⟩, hpin⟩, he⟩, hnn⟩ := hok
  cases hu' : migDecField cipher cred.username_encrypted with
  | error e => rw [hu'] at hu; simp [Except.isOk, Except.toBool] at hu
  | ok username =>
  cases hp' : migDecField cipher cred.password_encrypted with
  | error e => rw [hp'] at hp; simp [Except.isOk, Except.toBool] at hp
  | ok password =>
  cases hpin' : migDecField cipher cred.pin_encrypted with
  | error e => rw [hpin'] at hpin; simp [Except.isOk, Except.toBool] at hpin
  | ok pin =>
  cases he' : migDecField cipher cred.extra_encrypted with
  | error e => rw [he'] at he; simp [Except.isOk, Except.toBool] at he
  | ok extra =>
  cases hn' : migDecField cipher cred.notes_encrypted with
  | error e => rw [hn'] at hnn; simp [Except.isOk, Except.toBool] at hnn
  | ok notes =>
  refine ⟨{ cred with
      username_encrypted := migEncField dek (nonce 0) username,
      password_encrypted := migEncField dek (nonce 1) password,
      pin_encrypted := migEncField dek (nonce 2) pin,
      extra_encrypted := migEncField dek (nonce 3) extra,
      notes_encrypted := migEncField dek (nonce 4) notes }, ?_, ?_⟩
  · rw [migrateCred]
    simp only [hu', hp', hpin', he', hn', except_bind_error, except_bind_ok,
      except_pure]
  · refine ⟨rfl, rfl, rfl, ?_, ?_, ?_, ?_, ?_⟩ <;>
      first
        | exact migEncField_roundTrips cipher dek (nonce 0) hdek (hn 0) _ _ hu'
        | exact migEncField_roundTrips cipher dek (nonce 1) hdek (hn 1) _ _ hp'
        | exact migEncField_roundTrips cipher dek (nonce 2) hdek (hn 2) _ _ hpin'
        | exact migEncField_roundTrips cipher dek (nonce 3) hdek (hn 3) _ _ he'
        | exact migEncField_roundTrips cipher dek (nonce 4) hdek (hn 4) _ _ hn'

theorem migrate_newCreds_forall2 (cipher : VaultCrypto) (dek : Bytes)
    (hdek : ByteOk dek) :
    ∀ (creds : List Credential) (nonce : Nat → Nat → Bytes),
      (∀ i j, ByteOk (nonce i j)) →
      (∀ cred ∈ creds, credDecryptFails cipher cred = false) →
      List.Forall₂ (credRoundTrips cipher dek) creds
        ((creds.mapIdx (fun i cred => (cred, migrateCred cipher dek (nonce i) cred))).map
          (fun r => match r.2 with | .ok c' => c' | .error _ => r.1)) := by
  intro creds
  induction creds with
  | nil => intro nonce _ _; simp
  | cons cred creds ih =>
      intro nonce hn hall
      rw [List.mapIdx_cons, List.map_cons]
      obtain ⟨cred', hok, hrt⟩ :=
        migrateCred_ok cipher dek hdek (nonce 0) (hn 0) cred (hall cred (by simp))
      simp only [hok]
      exact List.Forall₂.cons hrt
        (ih (fun i => nonce (i + 1)) (fun i j => hn (i + 1) j)
          (fun c hc => hall c (by simp [hc])))

/-! ## Claim C2: migration aborts as a whole when any legacy field fails
to decrypt. -/

/-- C2: if any credential has a legacy-encrypted field that fails to
decrypt during the migration run, `migrate` reports `aborted` with the
number of failing credentials and returns the store exactly as it was —
no stored field is changed and no Keystore Record is created. -/
theorem migrate_aborts_on_decrypt_failure (db : VaultDB) (pw : Str)
    (rng : MigRandom) (hks : db.keystore = []) (hpw : pw ≠ [])
    (hfail : 0 < (db.credentials.filter (credDecryptFails (get_cipher pw))).length) :
    migrate db pw rng =
      (.aborted (db.credentials.filter (credDecryptFails (get_cipher pw))).length,
        db) := by
  have hcount :
      ((db.credentials.mapIdx (fun i cred =>
          (cred, migrateCred (get_cipher pw) (generate_dek rng.dek)
            (rng.fieldNonce i) cred))).filter (fun r => !(r.2.isOk))).length =
        (db.credentials.filter (credDecryptFails (get_cipher pw))).length :=
    filter_mapIdx_length _ _ _ _
      (fun i cred => by rw [migrateCred_isOk, Bool.not_not])
  rw [migrate, if_neg (by rw [hks]; exact fun h => h rfl), if_neg hpw]
  simp only [hcount]
  rw [if_neg (by omega)]

/-- The concrete store, password and randomness used by the C2
witness: one credential whose `username_encrypted` holds a value the
legacy cipher cannot decrypt. -/
def c2Cred : Credential :=
  { id := "cred-1".data, platform_id := "p".data,
    label := "Principal".data, username_encrypted := some "x".data,
    password_encrypted := none, pin_encrypted := none,
    extra_encrypted := none, notes_encrypted := none }

def c2Store : VaultDB :=
  { platforms := [], credentials := [c2Cred], assets := [], keystore := [] }

/-- Concrete migration randomness for the witnesses. -/
def c2Rng : MigRandom :=
  { rsaSeed := [1], dek := [2], salt := [3], pkNonce := [4], oaepR := [5],
    fieldNonce := fun _ _ => [6] }

/-- Witness for C2 at a concrete store: the single corrupt credential
aborts the whole run and the store is returned unchanged. -/
theorem migrate_aborts_on_decrypt_failure_witness :
    c2Store.keystore = [] ∧ "pw".data ≠ [] ∧
      0 < (c2Store.credentials.filter (credDecryptFails (get_cipher "pw".data))).length ∧
      migrate c2Store "pw".data c2Rng =
        (.aborted (c2Store.credentials.filter
          (credDecryptFails (get_cipher "pw".data))).length, c2Store) :=
  ⟨by rfl, by decide, by decide,
    migrate_aborts_on_decrypt_failure c2Store "pw".data c2Rng (by rfl) (by decide)
      (by decide)⟩

/-! ## Claim C3: successful migration. -/

/-- C3: when every legacy field decrypts, `migrate` reports `migrated N`
for the N stored credentials, produces exactly one Keystore Record, and
every migrated field round-trips (decrypts to the original legacy
plaintext) under the DEK recovered by unlocking the new hybrid session
from that record with the same master password. -/
theorem migrate_success_roundtrip (db : VaultDB) (pw : Str) (rng : MigRandom)
    (hks : db.keystore = []) (hpw : pw ≠ [])
    (hseed : ByteOk rng.rsaSeed) (hdek : ByteOk rng.dek)
    (hsalt : ByteOk rng.salt) (hpkn : ByteOk rng.pkNonce)
    (hoaep : ByteOk rng.oaepR) (hfn : ∀ i j, ByteOk (rng.fieldNonce i j))
    (hall : ∀ cred ∈ db.credentials, credDecryptFails (get_cipher pw) cred = false) :
    (migrate db pw rng).1 = .migrated db.credentials.length ∧
    (migrate db pw rng).2.keystore.length = 1 ∧
    (migrate db pw rng).2.credentials.length = db.credentials.length ∧
    List.Forall₂ (credRoundTrips (get_cipher pw) rng.dek)
      db.credentials (migrate db pw rng).2.credentials ∧
    ∀ ks ∈ (migrate db pw rng).2.keystore,
      VaultSession.load_keys ks.private_key_encrypted ks.dek_encrypted pw =
        .ok ⟨some ⟨rng.rsaSeed⟩, some (publicKeyOf ⟨rng.rsaSeed⟩), some rng.dek⟩ := by
  have herr :
      ((db.credentials.mapIdx (fun i cred =>
          (cred, migrateCred (get_cipher pw) (generate_dek rng.dek)
            (rng.fieldNonce i) cred))).filter (fun r => !(r.2.isOk))).length =
        (db.credentials.filter (credDecryptFails (get_cipher pw))).length :=
    filter_mapIdx_length _ _ _ _
      (fun i cred => by rw [migrateCred_isOk, Bool.not_not])
  have herr0 : (db.credentials.filter (credDecryptFails (get_cipher pw))).length = 0 := by
    rw [List.filter_eq_nil_iff.2 (fun a ha => by rw [hall a ha]; exact fun h => by cases h)]
    rfl
  have hsucc :
      ((db.credentials.mapIdx (fun i cred =>
          (cred, migrateCred (get_cipher pw) (generate_dek rng.dek)
            (rng.fieldNonce i) cred))).filter (fun r => r.2.isOk)).length =
        (db.credentials.filter (fun cred =>
          !(credDecryptFails (get_cipher pw) cred))).length :=
    filter_mapIdx_length _ _ _ _ (fun i cred => by rw [migrateCred_isOk])
  have hsuccAll : (db.credentials.filter (fun cred =>
      !(credDecryptFails (get_cipher pw) cred))).length = db.credentials.length := by
    rw [List.filter_eq_self.2 (fun a ha => by rw [hall a ha]; rfl)]
  have hmig : migrate db pw rng =
      (.migrated db.credentials.length,
        { db with
          credentials :=
            ((db.credentials.mapIdx (fun i cred =>
              (cred, migrateCred (get_cipher pw) (generate_dek rng.dek)
                (rng.fieldNonce i) cred))).map (fun r =>
                  match r.2 with
                  | .ok c' => c'
                  | .error _ => r.1)),
          keystore := db.keystore ++
            [{ id := "primary".data,
               public_key := serialize_public_key (generate_rsa_keypair rng.rsaSeed).2,
               private_key_encrypted :=
                 encrypt_private_key (generate_rsa_keypair rng.rsaSeed).1 pw
                   rng.salt rng.pkNonce,
               dek_encrypted :=
                 encrypt_dek (generate_dek rng.dek) (generate_rsa_keypair rng.rsaSeed).2
                   rng.oaepR }] }) := by
    rw [migrate, if_neg (by rw [hks]; exact fun h => h rfl), if_neg hpw]
    simp only [herr, herr0, hsucc, hsuccAll, if_true, ite_true, reduceIte]
  refine ⟨by rw [hmig], by rw [hmig]; simp [hks], ?_, ?_, ?_⟩
  · rw [hmig]
    have h2 := migrate_newCreds_forall2 (get_cipher pw) (generate_dek rng.dek)
      (by exact hdek) db.credentials rng.fieldNonce hfn hall
    exact (List.Forall₂.length_eq h2).symm
  · rw [hmig]
    exact migrate_newCreds_forall2 (get_cipher pw) (generate_dek rng.dek)
      (by exact hdek) db.credentials rng.fieldNonce hfn hall
  · rw [hmig]
    intro ks hksm
    rw [hks] at hksm
    simp only [List.nil_append, List.mem_singleton] at hksm
    subst hksm
    simp only [generate_rsa_keypair, generate_dek]
    exact load_keys_roundtrip ⟨rng.rsaSeed⟩ pw rng.salt rng.pkNonce rng.dek rng.oaepR
      hsalt hpkn (by exact hseed) hdek hoaep

/-- A concrete legacy token for the C3 witness: `"hunter2"` encrypted
under the legacy cipher for password `"pw"`. -/
def c3Tok : Str := (get_cipher "pw".data).encrypt "hunter2".data [7]

/-- The concrete store of the C3 witness: one credential with a valid
legacy-encrypted username. -/
def c3Store : VaultDB :=
  { platforms := [],
    credentials := [{ c2Cred with username_encrypted := some c3Tok }],
    assets := [], keystore := [] }

/-- Concrete migration randomness for the C3 witness. -/
def c3Rng : MigRandom :=
  { rsaSeed := [1, 2], dek := List.replicate 32 9, salt := [3], pkNonce := [4],
    oaepR := [5], fieldNonce := fun _ _ => [8] }

/-- Witness for C3 at a concrete store with one valid credential. -/
theorem migrate_success_roundtrip_witness :
    c3Store.keystore = [] ∧
    (migrate c3Store "pw".data c3Rng).1 = .migrated c3Store.credentials.length ∧
    (migrate c3Store "pw".data c3Rng).2.keystore.length = 1 ∧
    List.Forall₂ (credRoundTrips (get_cipher "pw".data) c3Rng.dek)
      c3Store.credentials (migrate c3Store "pw".data c3Rng).2.credentials := by
  have h := migrate_success_roundtrip c3Store "pw".data c3Rng (by rfl) (by decide)
    (by decide) (by decide) (by decide) (by decide) (by decide)
    (fun _ _ => (by decide : ByteOk [8])) (by decide)
  exact ⟨by rfl, h.1, h.2.1, h.2.2.2.1⟩

/-! ## Claim C4: encrypt/decrypt round-trip. -/

/-- C4: for every string `s` and 32-byte DEK held by a valid unlocked
session (any fresh 12-byte nonce), `decrypt_data (encrypt_data s dek) dek`
returns `s` exactly. -/
theorem encrypt_decrypt_roundtrip (s : Str) (dek nonce : Bytes)
    (hd : ByteOk dek) (_hdlen : dek.length = 32)
    (hn : ByteOk nonce) (_hnlen : nonce.length = 12) :
    decrypt_data (encrypt_data s dek nonce) dek = .ok s :=
  decrypt_data_encrypt_data s dek nonce hd hn

/-- Witness for C4 at a concrete string, DEK and nonce. -/
theorem encrypt_decrypt_roundtrip_witness :
    ByteOk (List.replicate 32 0) ∧ (List.replicate 32 (0 : Nat)).length = 32 ∧
    ByteOk (List.replicate 12 0) ∧ (List.replicate 12 (0 : Nat)).length = 12 ∧
    decrypt_data (encrypt_data "hunter2".data (List.replicate 32 0)
      (List.replicate 12 0)) (List.replicate 32 0) = .ok "hunter2".data :=
  ⟨by decide, by decide, by decide, by decide,
    encrypt_decrypt_roundtrip "hunter2".data _ _ (by decide) (by decide)
      (by decide) (by decide)⟩

/-! ## Claim C5: locked fail-fast. -/

/-- C5: every cipher-consuming boundary operation dispatched while the
session is `Locked` (`_crypto = None`) fails with the 401 vault-locked
error produced by `get_crypto_instance`, before the handler body runs:
the database is returned untouched and no cryptographic work happens,
for every operation, payload, randomness and database. -/
theorem locked_ops_fail_fast (op : VaultOp) (rng : Nat → Bytes) (db : VaultDB) :
    dispatch op none rng db =
      (.error ⟨401, "Vault is locked. Unlock first with /unlock".data⟩, db) := rfl

/-! ## Claim C9: empty-field consistency. -/

/-- C9: encrypting an empty plaintext produces the empty stored value
and decrypting the empty stored value returns the empty plaintext — in
both the hybrid and the legacy scheme, for every key (even a malformed
one) and every nonce, which shows the cipher is never consulted. -/
theorem empty_field_consistency :
    (∀ (dek nonce : Bytes), encrypt_data [] dek nonce = []) ∧
    (∀ dek : Bytes, decrypt_data [] dek = .ok []) ∧
    (∀ (c : VaultCrypto) (iv : Bytes), c.encrypt [] iv = []) ∧
    (∀ c : VaultCrypto, c.decrypt [] = .ok []) :=
  ⟨fun _ _ => rfl, fun _ => rfl, fun _ _ => rfl, fun _ => rfl⟩

/-! ## Claim C7: non-determinism of encryption. -/

/-- C7: two encryptions of the same non-empty plaintext under the same
DEK with the distinct fresh nonces of the two calls yield different
blobs, and both blobs decrypt back to the plaintext. -/
theorem encrypt_nondeterministic (s : Str) (dek n1 n2 : Bytes)
    (hs : s ≠ []) (hd : ByteOk dek) (h1 : ByteOk n1) (h2 : ByteOk n2)
    (hne : n1 ≠ n2) :
    encrypt_data s dek n1 ≠ encrypt_data s dek n2 ∧
    decrypt_data (encrypt_data s dek n1) dek = .ok s ∧
    decrypt_data (encrypt_data s dek n2) dek = .ok s := by
  refine ⟨?_, decrypt_data_encrypt_data s dek n1 hd h1,
    decrypt_data_encrypt_data s dek n2 hd h2⟩
  intro heq
  have hct1 : ByteOk (xorKs dek n1 (utf8Encode s)) :=
    xorKs_byteOk _ _ _ (utf8Encode_byteOk s)
  have htag1 : ByteOk (macBytes dek n1 (xorKs dek n1 (utf8Encode s))) :=
    macBytes_byteOk hd h1 hct1
  have hct2 : ByteOk (xorKs dek n2 (utf8Encode s)) :=
    xorKs_byteOk _ _ _ (utf8Encode_byteOk s)
  have htag2 : ByteOk (macBytes dek n2 (xorKs dek n2 (utf8Encode s))) :=
    macBytes_byteOk hd h2 hct2
  rw [encrypt_data, if_neg hs, encrypt_data, if_neg hs] at heq
  simp only [aeadEncrypt] at heq
  have hsplit := congrArg splitOnDot heq
  rw [splitOnDot_joinDot3 _ _ _ (b64Encode_no_dot _ h1) (b64Encode_no_dot _ htag1)
      (b64Encode_no_dot _ hct1),
    splitOnDot_joinDot3 _ _ _ (b64Encode_no_dot _ h2) (b64Encode_no_dot _ htag2)
      (b64Encode_no_dot _ hct2)] at hsplit
  injection hsplit with hx _
  exact hne (b64Encode_injOn h1 h2 hx)

/-- Witness for C7 at concrete inputs: two encryptions of `"hunter2"`
with distinct nonces. -/
theorem encrypt_nondeterministic_witness :
    "hunter2".data ≠ ([] : Str) ∧
    (List.replicate 12 (0 : Nat)) ≠ (List.replicate 11 0 ++ [1]) ∧
    encrypt_data "hunter2".data (List.replicate 32 0) (List.replicate 12 0) ≠
      encrypt_data "hunter2".data (List.replicate 32 0) (List.replicate 11 0 ++ [1]) ∧
    decrypt_data (encrypt_data "hunter2".data (List.replicate 32 0)
      (List.replicate 12 0)) (List.replicate 32 0) = .ok "hunter2".data ∧
    decrypt_data (encrypt_data "hunter2".data (List.replicate 32 0)
      (List.replicate 11 0 ++ [1])) (List.replicate 32 0) = .ok "hunter2".data := by
  have h := encrypt_nondeterministic "hunter2".data (List.replicate 32 0)
    (List.replicate 12 0) (List.replicate 11 0 ++ [1]) (by decide) (by decide)
    (by decide) (by decide) (by decide)
  exact ⟨by decide, by decide, h.1, h.2.1, h.2.2⟩

/-! ## Claim C6: tamper detection. -/

/-- Flip bit `k` of byte `i` of a byte string. -/
def flipBit (bs : Bytes) (i k : Nat) : Bytes :=
  bs.set i ((bs.getD i 0) ^^^ 2 ^ k)

theorem byteOk_set : ∀ (bs : Bytes) (i v : Nat), ByteOk bs → v < 256 →
    ByteOk (bs.set i v)
  | [], _, _, _, _ => by intro b hb; simp at hb
  | a :: bs, 0, v, h, hv => by
      intro b hb
      rcases List.mem_cons.1 hb with rfl | hb
      · exact hv
      · exact h b (by simp [hb])
  | a :: bs, i + 1, v, h, hv => by
      intro b hb
      rcases List.mem_cons.1 hb with rfl | hb
      · exact h b (by simp)
      · exact byteOk_set bs i v (fun y hy => h y (by simp [hy])) hv b hb

theorem getD_set_self : ∀ (bs : Bytes) (i v : Nat), i < bs.length →
    (bs.set i v).getD i 0 = v
  | a :: bs, 0, v, _ => rfl
  | a :: bs, i + 1, v, h => getD_set_self bs i v (by simpa using h)
  | [], i, v, h => absurd h (by simp)

theorem getD_mem : ∀ (bs : Bytes) (i : Nat), i < bs.length → bs.getD i 0 ∈ bs
  | a :: bs, 0, _ => by simp
  | a :: bs, i + 1, h => by
      simp only [List.getD_cons_succ, List.mem_cons]
      exact Or.inr (getD_mem bs i (by simpa using h))
  | [], i, h => absurd h (by simp)

theorem flipBit_ne {bs : Bytes} {i k : Nat} (hi : i < bs.length) :
    flipBit bs i k ≠ bs := by
  intro h
  have h1 : (flipBit bs i k).getD i 0 = bs.getD i 0 := by rw [h]
  simp only [flipBit] at h1
  rw [getD_set_self bs i _ hi] at h1
  have h2 : bs.getD i 0 ^^^ (bs.getD i 0 ^^^ 2 ^ k) = 2 ^ k :=
    Nat.xor_cancel_left _ _
  rw [h1, Nat.xor_self] at h2
  exact absurd h2.symm (Nat.pos_iff_ne_zero.1 (Nat.pos_pow_of_pos k (by omega)))

theorem flipBit_byteOk {bs : Bytes} {i k : Nat} (h : ByteOk bs)
    (hi : i < bs.length) (hk : k < 8) : ByteOk (flipBit bs i k) := by
  have hb : bs.getD i 0 < 256 := h _ (getD_mem bs i hi)
  have hpow : (2 : Nat) ^ k < 256 := by
    calc (2 : Nat) ^ k ≤ 2 ^ 7 := Nat.pow_le_pow_right (by omega) (by omega)
    _ < 256 := by omega
  have : bs.getD i 0 ^^^ 2 ^ k < 2 ^ 8 :=
    Nat.xor_lt_two_pow (by omega) (by omega)
  exact byteOk_set bs i _ h (by omega)

/-- C6 (amended): for a blob produced by field encryption, flipping any
single bit of the decoded tag bytes or of the decoded ciphertext bytes
and re-encoding yields a blob on which decryption fails with the
decryption error; it never returns altered plaintext.  (At the base64
text level a bit flip can instead be absorbed by decoding leniency, in
which case decryption returns the original plaintext unchanged — see the
counterexample.) -/
theorem tamper_byte_flip_fails (s : Str) (dek nonce : Bytes) (i k : Nat)
    (hs : s ≠ []) (hd : ByteOk dek) (hn : ByteOk nonce) (hk : k < 8) :
    encrypt_data s dek nonce =
      joinDot [b64Encode nonce,
        b64Encode (macBytes dek nonce (xorKs dek nonce (utf8Encode s))),
        b64Encode (xorKs dek nonce (utf8Encode s))] ∧
    (i < (macBytes dek nonce (xorKs dek nonce (utf8Encode s))).length →
      decrypt_data (joinDot [b64Encode nonce,
        b64Encode (flipBit (macBytes dek nonce (xorKs dek nonce (utf8Encode s))) i k),
        b64Encode (xorKs dek nonce (utf8Encode s))]) dek =
        .error "Decryption failed") ∧
    (i < (xorKs dek nonce (utf8Encode s)).length →
      decrypt_data (joinDot [b64Encode nonce,
        b64Encode (macBytes dek nonce (xorKs dek nonce (utf8Encode s))),
        b64Encode (flipBit (xorKs dek nonce (utf8Encode s)) i k)]) dek =
        .error "Decryption failed") := by
  have hct : ByteOk (xorKs dek nonce (utf8Encode s)) :=
    xorKs_byteOk _ _ _ (utf8Encode_byteOk s)
  have htag : ByteOk (macBytes dek nonce (xorKs dek nonce (utf8Encode s))) :=
    macBytes_byteOk hd hn hct
  refine ⟨?_, ?_, ?_⟩
  · rw [encrypt_data, if_neg hs]
    simp only [aeadEncrypt]
  · intro hi
    have htag' : ByteOk (flipBit (macBytes dek nonce (xorKs dek nonce (utf8Encode s))) i k) :=
      flipBit_byteOk htag hi hk
    rw [decrypt_data, if_neg (joinDot3_ne_nil _ _ _)]
    simp only [decryptDataInner,
      splitOnDot_joinDot3 _ _ _ (b64Encode_no_dot _ hn) (b64Encode_no_dot _ htag')
        (b64Encode_no_dot _ hct),
      List.mapM_cons, List.mapM_nil,
      b64Encode_decode _ hn, b64Encode_decode _ htag', b64Encode_decode _ hct,
      Option.pure_def, Option.bind_eq_bind, Option.some_bind]
    rw [aeadDecrypt, if_neg (flipBit_ne hi)]
  · intro hi
    have hct' : ByteOk (flipBit (xorKs dek nonce (utf8Encode s)) i k) :=
      flipBit_byteOk hct hi hk
    rw [decrypt_data, if_neg (joinDot3_ne_nil _ _ _)]
    simp only [decryptDataInner,
      splitOnDot_joinDot3 _ _ _ (b64Encode_no_dot _ hn) (b64Encode_no_dot _ htag)
        (b64Encode_no_dot _ hct'),
      List.mapM_cons, List.mapM_nil,
      b64Encode_decode _ hn, b64Encode_decode _ htag, b64Encode_decode _ hct',
      Option.pure_def, Option.bind_eq_bind, Option.some_bind]
    rw [aeadDecrypt,
      if_neg (fun heq => flipBit_ne hi (macBytes_inj heq).2.2.symm)]

/-- Witness for the amended C6 at concrete inputs. -/
theorem tamper_byte_flip_fails_witness :
    "A".data ≠ ([] : Str) ∧ (0 : Nat) < 8 ∧
    (0 < (macBytes (List.replicate 32 0) (List.replicate 12 0)
      (xorKs (List.replicate 32 0) (List.replicate 12 0) (utf8Encode "A".data))).length) ∧
    (0 < (xorKs (List.replicate 32 0) (List.replicate 12 0) (utf8Encode "A".data)).length) ∧
    decrypt_data (joinDot [b64Encode (List.replicate 12 0),
      b64Encode (flipBit (macBytes (List.replicate 32 0) (List.replicate 12 0)
        (xorKs (List.replicate 32 0) (List.replicate 12 0) (utf8Encode "A".data))) 0 0),
      b64Encode (xorKs (List.replicate 32 0) (List.replicate 12 0) (utf8Encode "A".data))])
      (List.replicate 32 0) = .error "Decryption failed" ∧
    decrypt_data (joinDot [b64Encode (List.replicate 12 0),
      b64Encode (macBytes (List.replicate 32 0) (List.replicate 12 0)
        (xorKs (List.replicate 32 0) (List.replicate 12 0) (utf8Encode "A".data))),
      b64Encode (flipBit (xorKs (List.replicate 32 0) (List.replicate 12 0)
        (utf8Encode "A".data)) 0 0)]) (List.replicate 32 0) =
      .error "Decryption failed" := by
  have h := tamper_byte_flip_fails "A".data (List.replicate 32 0)
    (List.replicate 12 0) 0 0 (by decide) (by decide) (by decide) (by decide)
  exact ⟨by decide, by decide, by decide, by decide, h.2.1 (by decide),
    h.2.2 (by decide)⟩

/-- The C6 counterexample blob: `"A"` encrypted under the all-zero DEK
and nonce. -/
def c6Dek : Bytes := List.replicate 32 0

def c6Nonce : Bytes := List.replicate 12 0

def c6Blob : Str := encrypt_data "A".data c6Dek c6Nonce

/-- `c6Blob` with one bit of one character of its ciphertext portion
flipped (`'Q'` at string index 83 becomes `'S'`). -/
def c6Flipped : Str := c6Blob.set 83 'S'

/-- Counterexample to C6 as stated: flipping a single bit in the stored
blob's ciphertext portion (ASCII bit 1 of the character at index 83,
inside the third dot-separated part) does NOT cause decryption to fail —
the flipped base64 digit only changes padding bits that decoding
discards, so decryption succeeds and returns the original plaintext. -/
theorem tamper_text_flip_counterexample :
    c6Blob[83]? = some 'Q' ∧
    c6Flipped = c6Blob.set 83 'S' ∧
    'Q'.toNat ^^^ 'S'.toNat = 2 ∧
    c6Flipped.length = c6Blob.length ∧
    (splitOnDot c6Blob).length = 3 ∧
    (splitOnDot c6Flipped).length = 3 ∧
    (splitOnDot c6Blob)[0]? = (splitOnDot c6Flipped)[0]? ∧
    (splitOnDot c6Blob)[1]? = (splitOnDot c6Flipped)[1]? ∧
    (splitOnDot c6Blob)[2]? = some "1Q==".data ∧
    (splitOnDot c6Flipped)[2]? = some "1S==".data ∧
    decrypt_data c6Flipped c6Dek = .ok "A".data := by
  refine ⟨?_, rfl, ?_, ?_, ?_, ?_, ?_, ?_, ?_, ?_, ?_⟩ <;> decide

/-! ## Claim C8: the decryption error taxonomy. -/

theorem mapM_b64Decode_length : ∀ (l : List (List Char)) (parts : List Bytes),
    l.mapM b64Decode = some parts → parts.length = l.length := by
  intro l
  induction l with
  | nil => intro parts h; cases h; rfl
  | cons x l ih =>
      intro parts h
      rw [List.mapM_cons] at h
      cases hx : b64Decode x with
      | none => rw [hx] at h; cases h
      | some b =>
          rw [hx] at h
          simp only [Option.pure_def, Option.bind_eq_bind, Option.some_bind] at h
          cases ht : l.mapM b64Decode with
          | none => rw [ht] at h; cases h
          | some tail =>
              rw [ht] at h
              simp only [Option.some_bind, Option.some.injEq] at h
              subst h
              simp [ih tail ht]

/-- C8 (amended): `decrypt_data` surfaces every failure — including a
stored blob that does not split into the expected three parts, and an
AEAD tag mismatch — as the ONE unified error
`ValueError("Decryption failed")`; the two conditions are not externally
distinct errors, and neither is replaced by empty or default
plaintext. -/
theorem decrypt_error_taxonomy_unified :
    (∀ (blob : Str) (dek : Bytes) (e : String),
      decrypt_data blob dek = .error e → e = "Decryption failed") ∧
    (∀ (blob : Str) (dek : Bytes), blob ≠ [] → (splitOnDot blob).length ≠ 3 →
      decrypt_data blob dek = .error "Decryption failed") := by
  constructor
  · intro blob dek e h
    rw [decrypt_data] at h
    by_cases hb : blob = []
    · rw [if_pos hb] at h; cases h
    · rw [if_neg hb] at h
      cases hi : decryptDataInner blob dek with
      | ok s => rw [hi] at h; cases h
      | error e' =>
          rw [hi] at h
          injection h with he
          exact he.symm
  · intro blob dek hb h3
    rw [decrypt_data, if_neg hb]
    rw [decryptDataInner]
    cases hm : (splitOnDot blob).mapM b64Decode with
    | none => rfl
    | some parts =>
        have hlen := mapM_b64Decode_length _ _ hm
        match parts, hlen with
        | [], _ => rfl
        | [a], _ => rfl
        | [a, b], _ => rfl
        | [a, b, c], hlen => exact absurd hlen.symm h3
        | a :: b :: c :: d :: rest, _ => rfl

/-- Witness for the amended C8: a concrete blob that does not split into
three parts fails with the unified error, and the unified-error
characterization applies to that concrete failure. -/
theorem decrypt_error_taxonomy_unified_witness :
    ("aaaa".data ≠ ([] : Str)) ∧ (splitOnDot "aaaa".data).length ≠ 3 ∧
    decrypt_data "aaaa".data [0] = .error "Decryption failed" ∧
    ("Decryption failed" : String) = "Decryption failed" :=
  ⟨by decide, by decide,
    decrypt_error_taxonomy_unified.2 "aaaa".data [0] (by decide) (by decide),
    decrypt_error_taxonomy_unified.1 "aaaa".data [0] "Decryption failed"
      (by decide)⟩

/-- The C8 counterexample inputs: a malformed blob (one part) and a
tag-tampered blob (three parts). -/
def c8Malformed : Str := "aaaa".data

def c8Tampered : Str :=
  joinDot [b64Encode c6Nonce,
    b64Encode (flipBit (macBytes c6Dek c6Nonce
      (xorKs c6Dek c6Nonce (utf8Encode "A".data))) 0 0),
    b64Encode (xorKs c6Dek c6Nonce (utf8Encode "A".data))]

set_option maxRecDepth 4000 in
/-- Counterexample to C8 as stated: the malformed-blob condition and the
AEAD tag-mismatch condition are internally distinct exceptions
(`"Invalid data format"` vs `"InvalidTag"`), but `decrypt_data` re-raises
both as the SAME externally visible error `"Decryption failed"` — the
two are not distinct to callers. -/
theorem error_taxonomy_counterexample :
    (splitOnDot c8Malformed).length = 1 ∧
    (splitOnDot c8Tampered).length = 3 ∧
    decryptDataInner c8Malformed c6Dek = .error "Invalid data format" ∧
    decryptDataInner c8Tampered c6Dek = .error "InvalidTag" ∧
    decrypt_data c8Malformed c6Dek = .error "Decryption failed" ∧
    decrypt_data c8Tampered c6Dek = .error "Decryption failed" ∧
    decrypt_data c8Malformed c6Dek = decrypt_data c8Tampered c6Dek := by
  refine ⟨?_, ?_, ?_, ?_, ?_, ?_, ?_⟩ <;> decide

/-! ## Claim C1: unlock with correct and wrong passwords. -/

/-- C1 (the code's actual behaviour, at odds with the claim):
`unlock_vault` succeeds for EVERY password — `verify_password` encrypts
a test value and decrypts it under the very key being verified, so it
always returns `true`; the response reports success, the global crypto
instance is installed, and `is_unlocked` becomes `true`, also when the
password is wrong. -/
theorem unlock_any_password_succeeds (pw : Str) (iv : Bytes) (st : AppState)
    (hiv : ByteOk iv) :
    unlock_vault pw iv st =
      (⟨true, "Vault unlocked successfully".data⟩, some (get_crypto pw)) ∧
    is_unlocked (unlock_vault pw iv st).2 = true := by
  have hv := verify_password_always_true pw iv hiv
  have h1 : unlock_vault pw iv st =
      (⟨true, "Vault unlocked successfully".data⟩, some (get_crypto pw)) := by
    simp only [unlock_vault, hv, if_true, ite_true]
  exact ⟨h1, by rw [h1]; rfl⟩

/-- Witness for C1's bug theorem at the wrong password `"wrong"` on a
locked vault: the unlock reports success and the session becomes
unlocked. -/
theorem unlock_any_password_succeeds_witness :
    ByteOk (List.replicate 12 0) ∧
    unlock_vault "wrong".data (List.replicate 12 0) none =
      (⟨true, "Vault unlocked successfully".data⟩,
        some (get_crypto "wrong".data)) ∧
    is_unlocked (unlock_vault "wrong".data (List.replicate 12 0) none).2 = true := by
  have h := unlock_any_password_succeeds "wrong".data (List.replicate 12 0) none
    (by decide)
  exact ⟨by decide, h.1, h.2⟩

/-! ## Claim C10: the frame property of unlock. -/

/-- C10: the `_crypto` global is replaced only on the success branch of
`unlock_vault`: whenever the response does not report success the state
is exactly what it was before the call, and whenever the state changed
the response reported success. -/
theorem unlock_frame_property (pw : Str) (iv : Bytes) (st : AppState) :
    ((unlock_vault pw iv st).1.success = false → (unlock_vault pw iv st).2 = st) ∧
    ((unlock_vault pw iv st).2 ≠ st → (unlock_vault pw iv st).1.success = true) := by
  by_cases hv : (get_crypto pw).verify_password iv
  · constructor
    · intro hfail
      simp only [unlock_vault, hv, if_true, ite_true] at hfail
      cases hfail
    · intro _
      simp only [unlock_vault, hv, if_true, ite_true]
  · have hv' : (get_crypto pw).verify_password iv = false := by
      simp only [Bool.not_eq_true] at hv
      exact hv
    constructor
    · intro _
      simp only [unlock_vault, hv', if_false, ite_false, Bool.false_eq_true]
    · intro hch
      exfalso
      apply hch
      simp only [unlock_vault, hv', if_false, ite_false, Bool.false_eq_true]

/-- Witness for C10: a failing unlock (malformed randomness oracle makes
`verify_password` false) leaves the state untouched, and a succeeding
unlock that changes the state reports success. -/
theorem unlock_frame_property_witness :
    (unlock_vault "pw".data [256] none).1.success = false ∧
    (unlock_vault "pw".data [256] none).2 = none ∧
    (unlock_vault "pw".data (List.replicate 12 0) none).2 ≠ none ∧
    (unlock_vault "pw".data (List.replicate 12 0) none).1.success = true :=
  ⟨by decide,
    (unlock_frame_property "pw".data [256] none).1 (by decide),
    by decide,
    (unlock_frame_property "pw".data (List.replicate 12 0) none).2 (by decide)⟩

end Vault
